import Mathlib

/-!
Verification of the Sudoku board and backtracking solver (sudoku.py).

The board state is a list of rows of optional integer cells.  Python list
indexing (including negative-index wraparound and IndexError) is modelled
explicitly, mutating methods return the possibly-raised exception together
with the resulting state, and the recursive solver is translated as a pair
of mutually recursive functions (the cell recursion and the candidate loop).
-/

set_option maxHeartbeats 1000000

namespace Sudoku

/-- A cell of the table: either empty (Python None) or an integer value. -/
abbrev Cell := Option Int

/-- The table: a list of rows, each a list of cells (Python list of lists). -/
abbrev Grid := List (List Cell)

/-- Resolution of a Python list index: an index i with 0 <= i < len denotes
position i, an index with -len <= i < 0 wraps around to len + i, and any
other index raises IndexError (modelled as none). -/
def pyIdx (len : Nat) (i : Int) : Option Nat :=
  if 0 ≤ i ∧ i < (len : Int) then some i.toNat
  else if -(len : Int) ≤ i ∧ i < 0 then some ((len : Int) + i).toNat
  else none

/-- Python list read l[i]. -/
def pyGet {α : Type} (l : List α) (i : Int) : Option α :=
  (pyIdx l.length i).bind (fun j => l.get? j)

/-- Python list item assignment l[i] = a. -/
def pyUpd {α : Type} (l : List α) (i : Int) (a : α) : Option (List α) :=
  (pyIdx l.length i).map (fun j => l.set j a)

/-- The table side length: self._size = block_size ** 2. -/
def size (b : Nat) : Nat := b ^ 2

/-- SudokuTable.__build_table: a size-by-size table of empty cells. -/
def build_table (b : Nat) : Grid :=
  List.replicate (size b) (List.replicate (size b) (none : Cell))

/-- The read self._table[row - 1][col - 1] (the body of SudokuTable.get). -/
def get (g : Grid) (row col : Int) : Option Cell :=
  (pyGet g (row - 1)).bind (fun r => pyGet r (col - 1))

/-- The assignment self._table[row - 1][col - 1] = v: first the row is looked
up (IndexError if row - 1 is out of range), then the item is assigned
(IndexError if col - 1 is out of range). -/
def setCell (g : Grid) (row col : Int) (v : Cell) : Option Grid :=
  match pyIdx g.length (row - 1), pyGet g (row - 1) with
  | some ri, some r => (pyUpd r (col - 1) v).map (fun r2 => g.set ri r2)
  | _, _ => none

/-- A Python value passed to SudokuTable.set: an int, None, or a value of any
other type. -/
inductive PyVal : Type
  | int (v : Int)
  | noneV
  | other
deriving DecidableEq

/-- The exceptions the table operations can raise. -/
inductive PyErr : Type
  | typeError
  | valueError
  | indexError
deriving DecidableEq

/-- SudokuTable.set: raises TypeError for a value that is neither an int nor
None, ValueError for an int outside 1..size, and otherwise writes the cell.
The result is the raised exception (if any) together with the table state. -/
def table_set (b : Nat) (g : Grid) (row col : Int) (value : PyVal) :
    Option PyErr × Grid :=
  match value with
  | .other => (some .typeError, g)
  | .noneV =>
    match setCell g row col none with
    | some g2 => (none, g2)
    | none => (some .indexError, g)
  | .int v =>
    if v < 1 ∨ v > (size b : Int) then (some .valueError, g)
    else
      match setCell g row col (some v) with
      | some g2 => (none, g2)
      | none => (some .indexError, g)

/-- SudokuTable.clear: self._table[row-1][col-1] = None, with no validation. -/
def clear (g : Grid) (row col : Int) : Option Grid :=
  setCell g row col none

/-- SudokuTable.__check_unique_list: drops the None entries and asks whether
the remaining values are pairwise distinct (len(set(x)) == len(x)). -/
def check_unique_list (l : List Cell) : Bool :=
  decide (l.filterMap id).Nodup

/-- SudokuTable.check_row. -/
def check_row (g : Grid) (row : Int) : Option Bool :=
  (pyGet g (row - 1)).map check_unique_list

/-- Collects the results of f over a list, left to right, propagating the
first raised exception (the effect of a Python comprehension or loop whose
body may raise). -/
def listMapM {α β : Type} (f : α → Option β) : List α → Option (List β)
  | [] => some []
  | x :: xs =>
    match f x with
    | none => none
    | some y =>
      match listMapM f xs with
      | none => none
      | some ys => some (y :: ys)

/-- SudokuTable.check_col: the comprehension [row[col - 1] for row in table]
followed by the uniqueness check; an out-of-range access raises. -/
def check_col (g : Grid) (col : Int) : Option Bool :=
  (listMapM (fun r => pyGet r (col - 1)) g).map check_unique_list

/-- The list start, start+1, ..., start+len-1, i.e. Python
range(start, start+len). -/
def intRange (start : Int) (len : Nat) : List Int :=
  (List.range len).map (fun k : Nat => start + (k : Int))

/-- SudokuTable.check_block: collects, in row-major order, the values of the
b-by-b block whose block coordinates are given, rows
(block_row-1)*b+1 .. block_row*b and analogously for columns, each cell read
as self._table[row-1][col-1]. -/
def check_block (b : Nat) (g : Grid) (block_row block_col : Int) : Option Bool :=
  (listMapM (fun row =>
      listMapM (fun col => get g row col)
        (intRange ((block_col - 1) * (b : Int) + 1) b))
    (intRange ((block_row - 1) * (b : Int) + 1) b)).map
    (fun vss => check_unique_list vss.flatten)

/-- A Python loop that returns False at the first failing check, propagates a
raised exception, and returns True when every check passes. -/
def allM {α : Type} (f : α → Option Bool) : List α → Option Bool
  | [] => some true
  | x :: xs =>
    match f x with
    | none => none
    | some false => some false
    | some true => allM f xs

/-- SudokuTable.check_rows: rows 1..size. -/
def check_rows (b : Nat) (g : Grid) : Option Bool :=
  allM (fun r => check_row g r) (intRange 1 (size b))

/-- SudokuTable.check_cols: columns 1..size. -/
def check_cols (b : Nat) (g : Grid) : Option Bool :=
  allM (fun c => check_col g c) (intRange 1 (size b))

/-- SudokuTable.check_blocks: note that the two loops are
range(self._block_size), i.e. the 0-based indices 0..b-1 are passed to
check_block. -/
def check_blocks (b : Nat) (g : Grid) : Option Bool :=
  allM (fun br => allM (fun bc => check_block b g br bc) (intRange 0 b))
    (intRange 0 b)

/-- A short-circuiting Python conjunction of three optional booleans. -/
def and3 (x : Option Bool) (y z : Unit → Option Bool) : Option Bool :=
  match x with
  | some true =>
    match y () with
    | some true => z ()
    | r => r
  | r => r

/-- SudokuTable.check. -/
def check (b : Nat) (g : Grid) : Option Bool :=
  and3 (check_rows b g) (fun _ => check_cols b g) (fun _ => check_blocks b g)

/-- SudokuTable.check_cell: the row, the column and the block containing the
cell, the 1-based block coordinates obtained by floor division. -/
def check_cell (b : Nat) (g : Grid) (row col : Int) : Option Bool :=
  and3 (check_row g row)
    (fun _ => check_col g col)
    (fun _ => check_block b g ((row - 1).fdiv (b : Int) + 1)
        ((col - 1).fdiv (b : Int) + 1))

/-- A stored cell value turned back into the Python value passed to
SudokuTable.set when SmartSuduko.set restores the previous value. -/
def pyvalOf : Cell → PyVal
  | some v => .int v
  | none => .noneV

/-- SmartSuduko.set: reads the old value, performs the unchecked set, and if
the cell now fails check_cell restores the old value and raises ValueError. -/
def smart_set (b : Nat) (g : Grid) (row col : Int) (value : PyVal) :
    Option PyErr × Grid :=
  match get g row col with
  | none => (some .indexError, g)
  | some temp =>
    match table_set b g row col value with
    | (some e, g1) => (some e, g1)
    | (none, g1) =>
      match check_cell b g1 row col with
      | none => (some .indexError, g1)
      | some true => (none, g1)
      | some false =>
        match table_set b g1 row col (pyvalOf temp) with
        | (some e, g2) => (some e, g2)
        | (none, g2) => (some .valueError, g2)

/-- SmartSuduko.__next_cell. -/
def next_cell (b : Nat) (row col : Int) : Int × Int :=
  if col = (size b : Int) then (row + 1, 1) else (row, col + 1)

/-- SmartSuduko.__is_at_end: row > size or col > size. -/
def is_at_end (b : Nat) (row col : Int) : Bool :=
  decide ((size b : Int) < row ∨ (size b : Int) < col)

mutual

/-- SmartSuduko.__solve: the terminal test, the pre-filled skip, and otherwise
the candidate loop starting at 1.  The result is the returned boolean, or the
escaping exception, together with the table state. -/
def solve (b : Nat) (g : Grid) (row col : Int) : Except PyErr Bool × Grid :=
  if h : is_at_end b row col then (.ok true, g)
  else
    match get g row col with
    | none => (.error .indexError, g)
    | some (some _) =>
      solve b g (next_cell b row col).1 (next_cell b row col).2
    | some none =>
      solveLoop b g row col 1 (by simp [is_at_end] at h; omega)
termination_by
  (((size b : Int) + 1 - row).toNat, ((size b : Int) - col).toNat, size b + 2)
decreasing_by
  all_goals first
    | (apply Prod.Lex.right; apply Prod.Lex.right; omega)
    | (simp only [next_cell]
       simp only [is_at_end, decide_eq_true_eq, not_or, not_lt] at h
       split
       · apply Prod.Lex.left; omega
       · apply Prod.Lex.right
         apply Prod.Lex.left; omega)

/-- The candidate loop of SmartSuduko.__solve: for i in range(1, size + 1),
try self.set(row, col, i) (catching ValueError and continuing), recurse on
success, and after the loop clear the cell and return False. -/
def solveLoop (b : Nat) (g : Grid) (row col : Int) (i : Nat)
    (h : row ≤ (size b : Int) ∧ col ≤ (size b : Int)) :
    Except PyErr Bool × Grid :=
  if hi : i ≤ size b then
    match smart_set b g row col (.int (i : Int)) with
    | (some .valueError, g1) => solveLoop b g1 row col (i + 1) h
    | (some e, g1) => (.error e, g1)
    | (none, g1) =>
      match solve b g1 (next_cell b row col).1 (next_cell b row col).2 with
      | (.ok true, g2) => (.ok true, g2)
      | (.ok false, g2) => solveLoop b g2 row col (i + 1) h
      | (.error e, g2) => (.error e, g2)
  else
    match clear g row col with
    | some g2 => (.ok false, g2)
    | none => (.error .indexError, g)
termination_by
  (((size b : Int) + 1 - row).toNat, ((size b : Int) - col).toNat,
    size b + 1 - i)
decreasing_by
  all_goals first
    | (apply Prod.Lex.right; apply Prod.Lex.right; omega)
    | (simp only [next_cell]
       obtain ⟨h1, h2⟩ := h
       split
       · apply Prod.Lex.left; omega
       · apply Prod.Lex.right
         apply Prod.Lex.left; omega)

end

/-- SmartSuduko.fill_randomly, the public solve entry point: __solve(1, 1). -/
def run_solve (b : Nat) (g : Grid) : Except PyErr Bool × Grid :=
  solve b g 1 1

/-- Running a sequence of SudokuTable.set calls in order, stopping at the
first raised exception. -/
def apply_sets (b : Nat) (g : Grid) :
    List (Int × Int × PyVal) → Option PyErr × Grid
  | [] => (none, g)
  | op :: ops =>
    match table_set b g op.1 op.2.1 op.2.2 with
    | (none, g2) => apply_sets b g2 ops
    | (some e, g2) => (some e, g2)

/-! ### Derived notions used to state and prove the properties -/

/-- Well-formedness of a table state: the grid is exactly size-by-size (the
shape produced by construction and preserved by every operation). -/
def WF (b : Nat) (g : Grid) : Prop :=
  g.length = size b ∧ ∀ r ∈ g, r.length = size b

instance (b : Nat) (g : Grid) : Decidable (WF b g) := by
  unfold WF
  infer_instance

/-- The cell at 0-based coordinates (i, j). -/
def cellAt (g : Grid) (i j : Nat) : Cell :=
  (g.getD i []).getD j none

/-- The grid with the cell at 0-based coordinates (i, j) replaced by v. -/
def updAt (g : Grid) (i j : Nat) (v : Cell) : Grid :=
  g.set i ((g.getD i []).set j v)

/-- The values of 0-based row i. -/
def rowList (g : Grid) (i : Nat) : List Cell :=
  g.getD i []

/-- The values of 0-based column j. -/
def colList (g : Grid) (j : Nat) : List Cell :=
  g.map (fun r => r.getD j none)

/-- The values of the 0-based block (bi, bj), in row-major order. -/
def blockList (b : Nat) (g : Grid) (bi bj : Nat) : List Cell :=
  ((List.range b).map (fun di =>
    (List.range b).map (fun dj => cellAt g (bi * b + di) (bj * b + dj)))).flatten

/-- The 0-based canonical block coordinate inspected by a check_block call
with argument k taken from 0..b-1: index 0 wraps to the last block. -/
def canonBlockIdx (b : Nat) (k : Int) : Nat :=
  if k = 0 then b - 1 else (k - 1).toNat

/-- Constraint-validity of the whole table: every row, column and block is
duplicate-free among its present values. -/
def ValidN (b : Nat) (g : Grid) : Prop :=
  (∀ i < size b, ((rowList g i).filterMap id).Nodup) ∧
  (∀ j < size b, ((colList g j).filterMap id).Nodup) ∧
  (∀ bi < b, ∀ bj < b, ((blockList b g bi bj).filterMap id).Nodup)

/-- A cell value within the documented data-model range 1..n (or empty). -/
def cellOK (n : Nat) : Cell → Prop
  | none => True
  | some v => 1 ≤ v ∧ v ≤ (n : Int)

instance (n : Nat) (c : Cell) : Decidable (cellOK n c) :=
  match c with
  | none => .isTrue trivial
  | some _ => inferInstanceAs (Decidable (_ ∧ _))

/-- All present values of the table lie in 1..size (the data-model
invariant on cell values). -/
def ValuesOK (b : Nat) (g : Grid) : Prop :=
  ∀ i ∈ List.range (size b), ∀ j ∈ List.range (size b),
    cellOK (size b) (cellAt g i j)

instance (b : Nat) (g : Grid) : Decidable (ValuesOK b g) := by
  unfold ValuesOK
  infer_instance

/-- The table is fully filled: no cell is empty. -/
def Full (b : Nat) (g : Grid) : Prop :=
  ∀ i ∈ List.range (size b), ∀ j ∈ List.range (size b),
    cellAt g i j ≠ none

instance (b : Nat) (g : Grid) : Decidable (Full b g) := by
  unfold Full
  infer_instance

/-- The value stored by a SudokuTable.set call. -/
def cellOfVal : PyVal → Cell
  | .int v => some v
  | .noneV => none
  | .other => none

/-- A set operation with valid 1-based indices and a storable value. -/
def opOK (b : Nat) (op : Int × Int × PyVal) : Prop :=
  1 ≤ op.1 ∧ op.1 ≤ (size b : Int) ∧ 1 ≤ op.2.1 ∧ op.2.1 ≤ (size b : Int) ∧
    match op.2.2 with
    | .int v => 1 ≤ v ∧ v ≤ (size b : Int)
    | .noneV => True
    | .other => False

instance (b : Nat) (op : Int × Int × PyVal) : Decidable (opOK b op) :=
  match op with
  | (r, c, .int v) =>
    inferInstanceAs (Decidable (1 ≤ r ∧ r ≤ (size b : Int) ∧ 1 ≤ c ∧
      c ≤ (size b : Int) ∧ 1 ≤ v ∧ v ≤ (size b : Int)))
  | (r, c, .noneV) =>
    inferInstanceAs (Decidable (1 ≤ r ∧ r ≤ (size b : Int) ∧ 1 ≤ c ∧
      c ≤ (size b : Int) ∧ True))
  | (r, c, .other) =>
    inferInstanceAs (Decidable (1 ≤ r ∧ r ≤ (size b : Int) ∧ 1 ≤ c ∧
      c ≤ (size b : Int) ∧ False))

/-- The value written by the last operation of the list targeting the given
1-based cell, if any. -/
def lastWrite : List (Int × Int × PyVal) → Int → Int → Option Cell
  | [], _, _ => none
  | op :: ops, r, c =>
    match lastWrite ops r c with
    | some v => some v
    | none => if op.1 = r ∧ op.2.1 = c then some (cellOfVal op.2.2) else none

/-- The fully pre-filled all-ones 4-by-4 board (b = 2). -/
def onesBoard : Grid := List.replicate 4 (List.replicate 4 (some 1))

/-- A 4-by-4 board with two equal clues in the first row, so no completion
exists. -/
def dupBoard : Grid :=
  [[some 1, some 1, none, none],
   [none, none, none, none],
   [none, none, none, none],
   [none, none, none, none]]

/-- The post-condition of a __solve call entered at cursor (row, col). -/
def SPost (b : Nat) (g : Grid) (row col : Int)
    (res : Except PyErr Bool × Grid) : Prop :=
  (∃ bl, res.1 = Except.ok bl) ∧ WF b res.2 ∧
  (res.1 = Except.ok false → res.2 = g) ∧
  (∀ i j, i < size b → j < size b → ∀ v,
    cellAt g i j = some v → cellAt res.2 i j = some v) ∧
  (∀ i j, i < size b → j < size b → ∀ v, cellAt res.2 i j = some v →
    cellAt g i j = some v ∨ (1 ≤ v ∧ v ≤ (size b : Int))) ∧
  (res.1 = Except.ok true → ∀ i j, i < size b → j < size b →
    (row < (i : Int) + 1 ∨ (row = (i : Int) + 1 ∧ col ≤ (j : Int) + 1)) →
    ∃ v, cellAt res.2 i j = some v) ∧
  (ValidN b g → ValidN b res.2)

/-- The post-condition of the candidate loop entered at cursor (row, col). -/
def LPost (b : Nat) (g : Grid) (row col : Int)
    (res : Except PyErr Bool × Grid) : Prop :=
  (∃ bl, res.1 = Except.ok bl) ∧ WF b res.2 ∧
  (res.1 = Except.ok false →
    res.2 = updAt g (row - 1).toNat (col - 1).toNat none) ∧
  (∀ i j, i < size b → j < size b →
    ((i : Int) + 1 ≠ row ∨ (j : Int) + 1 ≠ col) → ∀ v,
    cellAt g i j = some v → cellAt res.2 i j = some v) ∧
  (∀ i j, i < size b → j < size b → ∀ v, cellAt res.2 i j = some v →
    cellAt g i j = some v ∨ (1 ≤ v ∧ v ≤ (size b : Int))) ∧
  (res.1 = Except.ok true → ∀ i j, i < size b → j < size b →
    (row < (i : Int) + 1 ∨ (row = (i : Int) + 1 ∧ col ≤ (j : Int) + 1)) →
    ∃ v, cellAt res.2 i j = some v) ∧
  (ValidN b g → ValidN b res.2)

/-- The row-major rank of a cursor position, strictly decreasing along the
solver's traversal; drives the induction on the recursion. -/
def posRank (b : Nat) (row col : Int) : Nat :=
  ((size b : Int) + 1 - row).toNat * (size b + 1) + ((size b : Int) - col).toNat

/-! ### Indexing lemmas -/

theorem pyIdx_canon {len : Nat} {i : Int} (h0 : 0 ≤ i) (h1 : i < (len : Int)) :
    pyIdx len i = some i.toNat := by
  unfold pyIdx
  rw [if_pos ⟨h0, h1⟩]

theorem pyIdx_wrap {len : Nat} {i : Int} (h0 : -(len : Int) ≤ i) (h1 : i < 0) :
    pyIdx len i = some ((len : Int) + i).toNat := by
  unfold pyIdx
  rw [if_neg (by omega), if_pos ⟨h0, h1⟩]

theorem pyIdx_bound {len : Nat} {i : Int} {j : Nat}
    (h : pyIdx len i = some j) : j < len := by
  unfold pyIdx at h
  split at h
  · rename_i hc
    injection h with h
    omega
  · split at h
    · rename_i hc
      injection h with h
      omega
    · exact absurd h (by simp)

theorem pyGet_eq {α : Type} {l : List α} {i : Int} {j : Nat} (d : α)
    (h : pyIdx l.length i = some j) : pyGet l i = some (l.getD j d) := by
  have hj : j < l.length := pyIdx_bound h
  unfold pyGet
  rw [h, Option.some_bind, List.get?_eq_getElem?, List.getElem?_eq_getElem hj,
    List.getD_eq_getElem _ _ hj]

theorem pyGet_none {α : Type} {l : List α} {i : Int}
    (h : pyIdx l.length i = none) : pyGet l i = none := by
  unfold pyGet
  rw [h]
  rfl

theorem pyUpd_eq {α : Type} {l : List α} {i : Int} {j : Nat} (a : α)
    (h : pyIdx l.length i = some j) : pyUpd l i a = some (l.set j a) := by
  unfold pyUpd
  rw [h]
  rfl

/-- Under the shape invariant, a cell read resolves both indices through
pyIdx and reads the 0-based cell. -/
theorem get_eq {b : Nat} {g : Grid} (hwf : WF b g) (row col : Int) :
    get g row col = (pyIdx (size b) (row - 1)).bind
      (fun i => (pyIdx (size b) (col - 1)).map (fun j => cellAt g i j)) := by
  unfold get
  cases hri : pyIdx (size b) (row - 1) with
  | none =>
    have : pyGet g (row - 1) = none := pyGet_none (by rw [hwf.1]; exact hri)
    rw [this]
    rfl
  | some i =>
    have hi : i < size b := pyIdx_bound hri
    have hrow : pyGet g (row - 1) = some (g.getD i []) :=
      pyGet_eq [] (by rw [hwf.1]; exact hri)
    have hrlen : (g.getD i []).length = size b := by
      refine hwf.2 _ ?_
      rw [List.getD_eq_getElem _ [] (by rw [hwf.1]; exact hi : i < g.length)]
      exact List.getElem_mem _
    rw [hrow, Option.some_bind, Option.some_bind]
    cases hcj : pyIdx (size b) (col - 1) with
    | none =>
      rw [pyGet_none (by rw [hrlen]; exact hcj)]
      rfl
    | some j =>
      rw [pyGet_eq none (by rw [hrlen]; exact hcj)]
      rfl

/-- Under the shape invariant, a cell write resolves both indices through
pyIdx and performs the 0-based update. -/
theorem setCell_eq {b : Nat} {g : Grid} (hwf : WF b g) (row col : Int)
    (v : Cell) :
    setCell g row col v = (pyIdx (size b) (row - 1)).bind
      (fun i => (pyIdx (size b) (col - 1)).map (fun j => updAt g i j v)) := by
  unfold setCell
  rw [hwf.1]
  cases hri : pyIdx (size b) (row - 1) with
  | none =>
    rfl
  | some i =>
    have hi : i < size b := pyIdx_bound hri
    have hrow : pyGet g (row - 1) = some (g.getD i []) :=
      pyGet_eq [] (by rw [hwf.1]; exact hri)
    have hrlen : (g.getD i []).length = size b := by
      refine hwf.2 _ ?_
      rw [List.getD_eq_getElem _ [] (by rw [hwf.1]; exact hi : i < g.length)]
      exact List.getElem_mem _
    rw [hrow, Option.some_bind]
    simp only
    cases hcj : pyIdx (size b) (col - 1) with
    | none =>
      unfold pyUpd
      rw [hrlen, hcj]
      rfl
    | some j =>
      rw [pyUpd_eq v (by rw [hrlen]; exact hcj)]
      rfl

theorem get_canon {b : Nat} {g : Grid} (hwf : WF b g) {row col : Int}
    (hr1 : 1 ≤ row) (hr2 : row ≤ (size b : Int))
    (hc1 : 1 ≤ col) (hc2 : col ≤ (size b : Int)) :
    get g row col = some (cellAt g (row - 1).toNat (col - 1).toNat) := by
  rw [get_eq hwf, pyIdx_canon (by omega) (by omega),
    pyIdx_canon (by omega) (by omega)]
  rfl

theorem setCell_canon {b : Nat} {g : Grid} (hwf : WF b g) {row col : Int}
    (hr1 : 1 ≤ row) (hr2 : row ≤ (size b : Int))
    (hc1 : 1 ≤ col) (hc2 : col ≤ (size b : Int)) (v : Cell) :
    setCell g row col v = some (updAt g (row - 1).toNat (col - 1).toNat v) := by
  rw [setCell_eq hwf, pyIdx_canon (by omega) (by omega),
    pyIdx_canon (by omega) (by omega)]
  rfl

/-! ### Cell update lemmas -/

theorem length_updAt (g : Grid) (i j : Nat) (v : Cell) :
    (updAt g i j v).length = g.length := by
  unfold updAt
  exact List.length_set ..

theorem WF_updAt {b : Nat} {g : Grid} (hwf : WF b g) (i j : Nat) (v : Cell) :
    WF b (updAt g i j v) := by
  by_cases hi : i < g.length
  · refine ⟨by rw [length_updAt]; exact hwf.1, ?_⟩
    intro r hr
    unfold updAt at hr
    rcases List.mem_or_eq_of_mem_set hr with hmem | heq
    · exact hwf.2 r hmem
    · subst heq
      rw [List.length_set]
      refine hwf.2 _ ?_
      rw [List.getD_eq_getElem _ [] hi]
      exact List.getElem_mem _
  · unfold updAt
    rw [List.set_eq_of_length_le (by omega)]
    exact hwf

theorem cellAt_updAt_self {g : Grid} {i j : Nat} (hi : i < g.length)
    (hj : j < (g.getD i []).length) (v : Cell) :
    cellAt (updAt g i j v) i j = v := by
  unfold cellAt updAt
  rw [List.getD_eq_getElem _ [] (by rw [List.length_set]; exact hi),
    List.getElem_set_self]
  rw [List.getD_eq_getElem _ none (by rw [List.length_set]; exact hj),
    List.getElem_set_self]

theorem cellAt_updAt_ne {g : Grid} {i j i' j' : Nat}
    (h : i' ≠ i ∨ j' ≠ j) (v : Cell) :
    cellAt (updAt g i j v) i' j' = cellAt g i' j' := by
  unfold cellAt updAt
  simp only [List.getD_eq_getElem?_getD]
  by_cases hii : i' = i
  · subst hii
    have hjj : j' ≠ j := by tauto
    by_cases hi : i' < g.length
    · rw [List.getElem?_set_self hi, Option.getD_some,
        List.getElem?_set_ne (Ne.symm hjj)]
    · rw [List.set_eq_of_length_le (by omega)]
  · rw [List.getElem?_set_ne (Ne.symm hii)]

theorem updAt_updAt {g : Grid} {i j : Nat} (v w : Cell) :
    updAt (updAt g i j v) i j w = updAt g i j w := by
  unfold updAt
  by_cases hi : i < g.length
  · have h1 : (g.set i ((g.getD i []).set j v)).getD i []
        = (g.getD i []).set j v := by
      rw [List.getD_eq_getElem?_getD, List.getElem?_set_self hi,
        Option.getD_some]
    rw [h1, List.set_set, List.set_set]
  · have e : ∀ r : List Cell, g.set i r = g :=
      fun r => List.set_eq_of_length_le (by omega)
    simp only [e]

theorem list_set_getD_self {α : Type} (l : List α) (n : Nat) (d : α) :
    l.set n (l.getD n d) = l := by
  by_cases hn : n < l.length
  · apply List.ext_getElem
    · rw [List.length_set]
    · intro i h1 h2
      by_cases hin : n = i
      · subst hin
        rw [List.getElem_set_self, List.getD_eq_getElem _ d hn]
      · rw [List.getElem_set_ne hin]
  · exact List.set_eq_of_length_le (by omega)

theorem updAt_self {g : Grid} {i j : Nat} :
    updAt g i j (cellAt g i j) = g := by
  unfold updAt cellAt
  rw [list_set_getD_self, list_set_getD_self]

theorem updAt_restore {g : Grid} {i j : Nat} {v : Cell} :
    updAt (updAt g i j v) i j (cellAt g i j) = g := by
  rw [updAt_updAt, updAt_self]

/-! ### Row, column and block value lists -/

theorem mem_intRange {s : Int} {len : Nat} {x : Int} :
    x ∈ intRange s len ↔ s ≤ x ∧ x < s + len := by
  unfold intRange
  constructor
  · intro hx
    rcases List.mem_map.1 hx with ⟨k, hk, hkx⟩
    rw [List.mem_range] at hk
    omega
  · intro h
    refine List.mem_map.2 ⟨(x - s).toNat, ?_, ?_⟩
    · rw [List.mem_range]
      omega
    · omega

theorem map_getD_range {α : Type} (l : List α) (d : α) :
    (List.range l.length).map (fun k => l.getD k d) = l := by
  induction l with
  | nil => rfl
  | cons x xs ih =>
    rw [List.length_cons, List.range_succ_eq_map, List.map_cons, List.map_map]
    have h1 : ((fun k => (x :: xs).getD k d) ∘ Nat.succ)
        = fun k => xs.getD k d := by
      funext k
      simp [List.getD_cons_succ]
    rw [List.getD_cons_zero, h1, ih]

theorem rowList_length {b : Nat} {g : Grid} (hwf : WF b g) {i : Nat}
    (hi : i < size b) : (rowList g i).length = size b := by
  unfold rowList
  refine hwf.2 _ ?_
  rw [List.getD_eq_getElem _ [] (by rw [hwf.1]; exact hi)]
  exact List.getElem_mem _

theorem rowList_eq_map {b : Nat} {g : Grid} (hwf : WF b g) {i : Nat}
    (hi : i < size b) :
    rowList g i = (List.range (size b)).map (fun k => cellAt g i k) := by
  conv_lhs => rw [← map_getD_range (rowList g i) none]
  rw [rowList_length hwf hi]
  rfl

theorem colList_eq_map {b : Nat} {g : Grid} (hwf : WF b g) (j : Nat) :
    colList g j = (List.range (size b)).map (fun i => cellAt g i j) := by
  unfold colList
  conv_lhs => rw [← map_getD_range g []]
  rw [List.map_map, hwf.1]
  rfl

theorem listMapM_some {α β : Type} (f : α → Option β) (hf : α → β) :
    ∀ (l : List α), (∀ x ∈ l, f x = some (hf x)) →
      listMapM f l = some (l.map hf)
  | [], _ => rfl
  | x :: xs, hall => by
    unfold listMapM
    rw [hall x (by simp),
      listMapM_some f hf xs (fun y hy => hall y (by simp [hy]))]
    rfl

theorem listMapM_map {α β γ : Type} (f : β → Option γ) (h : α → β) :
    ∀ (l : List α), listMapM f (l.map h) = listMapM (fun x => f (h x)) l
  | [] => rfl
  | x :: xs => by
    rw [List.map_cons]
    unfold listMapM
    rw [listMapM_map f h xs]

theorem listMapM_congr {α β : Type} {f f' : α → Option β} :
    ∀ {l : List α}, (∀ x ∈ l, f x = f' x) → listMapM f l = listMapM f' l
  | [], _ => rfl
  | x :: xs, hall => by
    unfold listMapM
    rw [hall x (by simp), listMapM_congr (fun y hy => hall y (by simp [hy]))]

theorem allM_eq_true_iff {α : Type} (f : α → Option Bool) :
    ∀ (l : List α), (allM f l = some true ↔ ∀ x ∈ l, f x = some true)
  | [] => by simp [allM]
  | x :: xs => by
    unfold allM
    cases hfx : f x with
    | none =>
      constructor
      · intro h
        cases h
      · intro h
        rw [h x (by simp)] at hfx
        cases hfx
    | some bv =>
      cases bv with
      | false =>
        constructor
        · intro h
          cases h
        · intro h
          rw [h x (by simp)] at hfx
          cases hfx
      | true =>
        rw [allM_eq_true_iff f xs]
        constructor
        · intro h y hy
          rcases List.mem_cons.1 hy with rfl | hy
          · exact hfx
          · exact h y hy
        · intro h y hy
          exact h y (by simp [hy])

theorem and3_eq_true_iff (x : Option Bool) (y z : Unit → Option Bool) :
    and3 x y z = some true ↔
      x = some true ∧ y () = some true ∧ z () = some true := by
  unfold and3
  cases x with
  | none => simp
  | some bv =>
    cases bv with
    | false => simp
    | true =>
      simp only [true_and]
      cases hy : y () with
      | none => simp
      | some bw =>
        cases bw with
        | false => simp
        | true => simp

/-! ### The checks at canonical 1-based coordinates -/

theorem check_row_canon {b : Nat} {g : Grid} (hwf : WF b g) {row : Int}
    (h1 : 1 ≤ row) (h2 : row ≤ (size b : Int)) :
    check_row g row = some (check_unique_list (rowList g (row - 1).toNat)) := by
  unfold check_row
  rw [pyGet_eq [] (by rw [hwf.1]; exact pyIdx_canon (by omega) (by omega))]
  rfl

theorem check_col_canon {b : Nat} {g : Grid} (hwf : WF b g) {col : Int}
    (h1 : 1 ≤ col) (h2 : col ≤ (size b : Int)) :
    check_col g col = some (check_unique_list (colList g (col - 1).toNat)) := by
  unfold check_col
  rw [listMapM_some (fun r => pyGet r (col - 1))
    (fun r => r.getD (col - 1).toNat none) g
    (fun r hr => pyGet_eq none
      (by rw [hwf.2 r hr]; exact pyIdx_canon (by omega) (by omega)))]
  rfl

theorem block_row_bound {b : Nat} {br : Int} {di : Nat}
    (h1 : 1 ≤ br) (h2 : br ≤ (b : Int)) (hdi : di < b) :
    1 ≤ (br - 1) * (b : Int) + 1 + di ∧
      (br - 1) * (b : Int) + 1 + di ≤ (size b : Int) ∧
      ((br - 1) * (b : Int) + 1 + di - 1).toNat = (br - 1).toNat * b + di := by
  have hnn : (0 : Int) ≤ (br - 1) * (b : Int) :=
    mul_nonneg (by omega) (by positivity)
  have hmul : (br - 1) * (b : Int) ≤ ((b : Int) - 1) * b :=
    mul_le_mul_of_nonneg_right (by omega) (by positivity)
  have hsz : (size b : Int) = (b : Int) ^ 2 := by
    unfold size
    push_cast
    ring
  have hexp : ((b : Int) - 1) * b = (b : Int) ^ 2 - b := by ring
  refine ⟨by omega, ?_, ?_⟩
  · rw [hsz]
    have hdib : (di : Int) ≤ (b : Int) - 1 := by omega
    linarith
  · have e : ((br - 1).toNat : Int) = br - 1 := by omega
    have e2 : (br - 1) * (b : Int) + 1 + di - 1
        = (((br - 1).toNat * b + di : Nat) : Int) := by
      push_cast [e]
      ring
    rw [e2, Int.toNat_natCast]

theorem check_block_canon {b : Nat} {g : Grid} (hwf : WF b g) {br bc : Int}
    (hbr1 : 1 ≤ br) (hbr2 : br ≤ (b : Int))
    (hbc1 : 1 ≤ bc) (hbc2 : bc ≤ (b : Int)) :
    check_block b g br bc
      = some (check_unique_list
          (blockList b g (br - 1).toNat (bc - 1).toNat)) := by
  unfold check_block
  have houter : listMapM (fun row => listMapM (fun col => get g row col)
        (intRange ((bc - 1) * (b : Int) + 1) b))
      (intRange ((br - 1) * (b : Int) + 1) b)
    = some ((List.range b).map (fun di => (List.range b).map (fun dj =>
        cellAt g ((br - 1).toNat * b + di) ((bc - 1).toNat * b + dj)))) := by
    rw [show intRange ((br - 1) * (b : Int) + 1) b
        = (List.range b).map (fun k : Nat => (br - 1) * (b : Int) + 1 + (k : Int))
        from rfl, listMapM_map]
    refine listMapM_some _ _ _ ?_
    intro di hdi
    rw [List.mem_range] at hdi
    obtain ⟨hr1, hr2, hr3⟩ := block_row_bound hbr1 hbr2 hdi
    rw [show intRange ((bc - 1) * (b : Int) + 1) b
        = (List.range b).map (fun k : Nat => (bc - 1) * (b : Int) + 1 + (k : Int))
        from rfl, listMapM_map]
    refine listMapM_some _ _ _ ?_
    intro dj hdj
    rw [List.mem_range] at hdj
    obtain ⟨hc1, hc2, hc3⟩ := block_row_bound hbc1 hbc2 hdj
    rw [get_canon hwf hr1 hr2 hc1 hc2, hr3, hc3]
  rw [houter]
  rfl

/-! ### Negative indices wrap around -/

theorem pyIdx_wrap_shift {n : Nat} {x : Int} (h1 : -(n : Int) ≤ x)
    (h2 : x < 0) : pyIdx n x = pyIdx n (x + n) := by
  rw [pyIdx_wrap h1 h2, pyIdx_canon (by omega) (by omega)]
  congr 1
  omega

theorem get_wrap_row {b : Nat} {g : Grid} (hwf : WF b g) {row : Int}
    (col : Int) (h1 : 1 - (size b : Int) ≤ row) (h2 : row ≤ 0) :
    get g row col = get g (row + (size b : Int)) col := by
  rw [get_eq hwf, get_eq hwf,
    show row + (size b : Int) - 1 = (row - 1) + (size b : Int) from by ring,
    ← pyIdx_wrap_shift (by omega) (by omega)]

theorem get_wrap_col {b : Nat} {g : Grid} (hwf : WF b g) (row : Int)
    {col : Int} (h1 : 1 - (size b : Int) ≤ col) (h2 : col ≤ 0) :
    get g row col = get g row (col + (size b : Int)) := by
  rw [get_eq hwf, get_eq hwf,
    show col + (size b : Int) - 1 = (col - 1) + (size b : Int) from by ring,
    ← pyIdx_wrap_shift (by omega) (by omega)]

theorem setCell_wrap_row {b : Nat} {g : Grid} (hwf : WF b g) {row : Int}
    (col : Int) (v : Cell) (h1 : 1 - (size b : Int) ≤ row) (h2 : row ≤ 0) :
    setCell g row col v = setCell g (row + (size b : Int)) col v := by
  rw [setCell_eq hwf, setCell_eq hwf,
    show row + (size b : Int) - 1 = (row - 1) + (size b : Int) from by ring,
    ← pyIdx_wrap_shift (by omega) (by omega)]

theorem setCell_wrap_col {b : Nat} {g : Grid} (hwf : WF b g) (row : Int)
    {col : Int} (v : Cell) (h1 : 1 - (size b : Int) ≤ col) (h2 : col ≤ 0) :
    setCell g row col v = setCell g row (col + (size b : Int)) v := by
  rw [setCell_eq hwf, setCell_eq hwf,
    show col + (size b : Int) - 1 = (col - 1) + (size b : Int) from by ring,
    ← pyIdx_wrap_shift (by omega) (by omega)]

/-! ### check_block with 0-based indices inspects a wrapped block -/

theorem check_block_row0 {b : Nat} {g : Grid} (hwf : WF b g) (bc : Int)
    (hb : 1 ≤ b) : check_block b g 0 bc = check_block b g (b : Int) bc := by
  have hbn : (b : Int) ≤ (size b : Int) := by
    have : b ≤ b ^ 2 := Nat.le_self_pow (by norm_num) b
    exact_mod_cast this
  have hsz : (size b : Int) = (b : Int) ^ 2 := by
    unfold size
    push_cast
    ring
  unfold check_block
  congr 1
  rw [show intRange ((0 - 1) * (b : Int) + 1) b
      = (List.range b).map (fun k : Nat => (0 - 1) * (b : Int) + 1 + (k : Int))
      from rfl, listMapM_map]
  rw [show intRange (((b : Int) - 1) * (b : Int) + 1) b
      = (List.range b).map
        (fun k : Nat => ((b : Int) - 1) * (b : Int) + 1 + (k : Int))
      from rfl, listMapM_map]
  refine listMapM_congr ?_
  intro k hk
  rw [List.mem_range] at hk
  refine listMapM_congr ?_
  intro col hcol
  rw [get_wrap_row hwf col (by omega) (by omega)]
  congr 1
  rw [hsz]
  ring

theorem check_block_col0 {b : Nat} {g : Grid} (hwf : WF b g) (br : Int)
    (hb : 1 ≤ b) : check_block b g br 0 = check_block b g br (b : Int) := by
  have hbn : (b : Int) ≤ (size b : Int) := by
    have : b ≤ b ^ 2 := Nat.le_self_pow (by norm_num) b
    exact_mod_cast this
  have hsz : (size b : Int) = (b : Int) ^ 2 := by
    unfold size
    push_cast
    ring
  unfold check_block
  congr 1
  refine listMapM_congr ?_
  intro row hrow
  rw [show intRange ((0 - 1) * (b : Int) + 1) b
      = (List.range b).map (fun k : Nat => (0 - 1) * (b : Int) + 1 + (k : Int))
      from rfl, listMapM_map]
  rw [show intRange (((b : Int) - 1) * (b : Int) + 1) b
      = (List.range b).map
        (fun k : Nat => ((b : Int) - 1) * (b : Int) + 1 + (k : Int))
      from rfl, listMapM_map]
  refine listMapM_congr ?_
  intro k hk
  rw [List.mem_range] at hk
  rw [get_wrap_col hwf row (by omega) (by omega)]
  congr 1
  rw [hsz]
  ring

theorem check_block_0based {b : Nat} {g : Grid} (hwf : WF b g) {k l : Int}
    (hk1 : 0 ≤ k) (hk2 : k < (b : Int)) (hl1 : 0 ≤ l) (hl2 : l < (b : Int)) :
    check_block b g k l = some (check_unique_list
      (blockList b g (canonBlockIdx b k) (canonBlockIdx b l))) := by
  have hb : 1 ≤ b := by omega
  by_cases hk0 : k = 0
  · by_cases hl0 : l = 0
    · subst hk0
      subst hl0
      rw [check_block_row0 hwf 0 hb, check_block_col0 hwf (b : Int) hb,
        check_block_canon hwf (by omega) (by omega) (by omega) (by omega)]
      unfold canonBlockIdx
      rw [if_pos rfl, show ((b : Int) - 1).toNat = b - 1 from by omega]
    · subst hk0
      rw [check_block_row0 hwf l hb,
        check_block_canon hwf (by omega) (by omega) (by omega) (by omega)]
      unfold canonBlockIdx
      rw [if_pos rfl, if_neg hl0,
        show ((b : Int) - 1).toNat = b - 1 from by omega]
  · by_cases hl0 : l = 0
    · subst hl0
      rw [check_block_col0 hwf k hb,
        check_block_canon hwf (by omega) (by omega) (by omega) (by omega)]
      unfold canonBlockIdx
      rw [if_neg hk0, if_pos rfl,
        show ((b : Int) - 1).toNat = b - 1 from by omega]
    · rw [check_block_canon hwf (by omega) (by omega) (by omega) (by omega)]
      unfold canonBlockIdx
      rw [if_neg hk0, if_neg hl0]

/-! ### The full check as a predicate on rows, columns and blocks -/

theorem cul_true_iff (l : List Cell) :
    check_unique_list l = true ↔ (l.filterMap id).Nodup := by
  simp [check_unique_list]

theorem check_rows_eq_true_iff {b : Nat} {g : Grid} (hwf : WF b g) :
    check_rows b g = some true ↔
      ∀ i < size b, ((rowList g i).filterMap id).Nodup := by
  unfold check_rows
  rw [allM_eq_true_iff]
  constructor
  · intro h i hi
    have h2 := h ((i : Int) + 1) (mem_intRange.2 (by omega))
    rw [check_row_canon hwf (by omega) (by omega),
      show ((i : Int) + 1 - 1).toNat = i from by omega] at h2
    injection h2 with h2
    exact (cul_true_iff _).1 h2
  · intro h r hr
    rw [mem_intRange] at hr
    rw [check_row_canon hwf (by omega) (by omega),
      (cul_true_iff _).2 (h _ (by omega))]

theorem check_cols_eq_true_iff {b : Nat} {g : Grid} (hwf : WF b g) :
    check_cols b g = some true ↔
      ∀ j < size b, ((colList g j).filterMap id).Nodup := by
  unfold check_cols
  rw [allM_eq_true_iff]
  constructor
  · intro h j hj
    have h2 := h ((j : Int) + 1) (mem_intRange.2 (by omega))
    rw [check_col_canon hwf (by omega) (by omega),
      show ((j : Int) + 1 - 1).toNat = j from by omega] at h2
    injection h2 with h2
    exact (cul_true_iff _).1 h2
  · intro h c hc
    rw [mem_intRange] at hc
    rw [check_col_canon hwf (by omega) (by omega),
      (cul_true_iff _).2 (h _ (by omega))]

theorem check_blocks_eq_true_iff {b : Nat} {g : Grid} (hwf : WF b g) :
    check_blocks b g = some true ↔
      ∀ bi < b, ∀ bj < b, ((blockList b g bi bj).filterMap id).Nodup := by
  unfold check_blocks
  rw [allM_eq_true_iff]
  constructor
  · intro h bi hbi bj hbj
    have hb : 1 ≤ b := by omega
    have hkl : ∀ m : Nat, m < b → ∃ x : Int, (0 ≤ x ∧ x < (b : Int)) ∧
        canonBlockIdx b x = m := by
      intro m hm
      by_cases hm1 : m = b - 1
      · exact ⟨0, ⟨by omega, by omega⟩, by unfold canonBlockIdx; rw [if_pos rfl]; omega⟩
      · refine ⟨(m : Int) + 1, ⟨by omega, by omega⟩, ?_⟩
        unfold canonBlockIdx
        rw [if_neg (by omega)]
        omega
    obtain ⟨x, ⟨hx1, hx2⟩, hxc⟩ := hkl bi hbi
    obtain ⟨y, ⟨hy1, hy2⟩, hyc⟩ := hkl bj hbj
    have h2 := h x (mem_intRange.2 (by omega))
    rw [allM_eq_true_iff] at h2
    have h3 := h2 y (mem_intRange.2 (by omega))
    rw [check_block_0based hwf hx1 hx2 hy1 hy2, hxc, hyc] at h3
    injection h3 with h3
    exact (cul_true_iff _).1 h3
  · intro h x hx
    rw [mem_intRange] at hx
    rw [allM_eq_true_iff]
    intro y hy
    rw [mem_intRange] at hy
    rw [check_block_0based hwf (by omega) (by omega) (by omega) (by omega)]
    have hxi : canonBlockIdx b x < b := by
      unfold canonBlockIdx
      split <;> omega
    have hyi : canonBlockIdx b y < b := by
      unfold canonBlockIdx
      split <;> omega
    rw [(cul_true_iff _).2 (h _ hxi _ hyi)]

theorem check_eq_true_iff {b : Nat} {g : Grid} (hwf : WF b g) :
    check b g = some true ↔ ValidN b g := by
  unfold check ValidN
  rw [and3_eq_true_iff, check_rows_eq_true_iff hwf, check_cols_eq_true_iff hwf,
    check_blocks_eq_true_iff hwf]

/-! ### Validity is preserved by removing values and by checked updates -/

theorem filterMap_id_sublist_of_map {α : Type} (idx : List α)
    (F F' : α → Cell) :
    (∀ x ∈ idx, F' x = F x ∨ F' x = none) →
    ((idx.map F').filterMap id).Sublist ((idx.map F).filterMap id) := by
  induction idx with
  | nil =>
    intro
    simp
  | cons x xs ih =>
    intro h
    have htail := ih (fun y hy => h y (by simp [hy]))
    rw [List.map_cons, List.map_cons]
    rcases h x (by simp) with he | hn
    · rw [he]
      cases hfx : F x with
      | none =>
        rw [List.filterMap_cons_none rfl, List.filterMap_cons_none rfl]
        exact htail
      | some v =>
        rw [List.filterMap_cons_some (rfl : id (some v) = some v),
          List.filterMap_cons_some (rfl : id (some v) = some v)]
        exact htail.cons₂ v
    · rw [hn, List.filterMap_cons_none rfl]
      cases hfx : F x with
      | none =>
        rw [List.filterMap_cons_none rfl]
        exact htail
      | some v =>
        rw [List.filterMap_cons_some (rfl : id (some v) = some v)]
        exact htail.cons v

theorem filterMap_id_sublist_of_map2 {α β : Type} (idx1 : List α)
    (idx2 : List β) (F F' : α → β → Cell) :
    (∀ x ∈ idx1, ∀ y ∈ idx2, F' x y = F x y ∨ F' x y = none) →
    (((idx1.map (fun x => idx2.map (F' x))).flatten).filterMap id).Sublist
      (((idx1.map (fun x => idx2.map (F x))).flatten).filterMap id) := by
  induction idx1 with
  | nil =>
    intro
    simp
  | cons x xs ih =>
    intro h
    rw [List.map_cons, List.map_cons, List.flatten_cons, List.flatten_cons,
      List.filterMap_append, List.filterMap_append]
    exact (filterMap_id_sublist_of_map idx2 (F x) (F' x)
      (h x (by simp))).append (ih (fun y hy => h y (by simp [hy])))

theorem block_cell_lt {b bi di : Nat} (hbi : bi < b) (hdi : di < b) :
    bi * b + di < size b := by
  unfold size
  rw [pow_two]
  calc bi * b + di < bi * b + b := by omega
    _ = (bi + 1) * b := by ring
    _ ≤ b * b := Nat.mul_le_mul_right b (by omega)

theorem blockList_eq_map2 {b : Nat} (g : Grid) (bi bj : Nat) :
    blockList b g bi bj = ((List.range b).map (fun di =>
      (List.range b).map (fun dj =>
        (fun x y => cellAt g (bi * b + x) (bj * b + y)) di dj))).flatten := rfl

theorem ValidN_mono {b : Nat} {g g' : Grid} (hwf : WF b g) (hwf' : WF b g')
    (hpt : ∀ i j, i < size b → j < size b →
      cellAt g' i j = cellAt g i j ∨ cellAt g' i j = none)
    (hv : ValidN b g) : ValidN b g' := by
  obtain ⟨hr, hc, hbl⟩ := hv
  refine ⟨?_, ?_, ?_⟩
  · intro i hi
    rw [rowList_eq_map hwf' hi]
    have hg := hr i hi
    rw [rowList_eq_map hwf hi] at hg
    exact List.Nodup.sublist
      (filterMap_id_sublist_of_map _ _ _
        (fun k hk => hpt i k hi (List.mem_range.1 hk))) hg
  · intro j hj
    rw [colList_eq_map hwf' j]
    have hg := hc j hj
    rw [colList_eq_map hwf j] at hg
    exact List.Nodup.sublist
      (filterMap_id_sublist_of_map _ _ _
        (fun k hk => hpt k j (List.mem_range.1 hk) hj)) hg
  · intro bi hbi bj hbj
    rw [blockList_eq_map2]
    have hg := hbl bi hbi bj hbj
    rw [blockList_eq_map2] at hg
    refine List.Nodup.sublist (filterMap_id_sublist_of_map2 _ _ _ _ ?_) hg
    intro x hx y hy
    rw [List.mem_range] at hx hy
    exact hpt _ _ (block_cell_lt hbi hx) (block_cell_lt hbj hy)

theorem rowList_updAt_ne {g : Grid} {i i' j : Nat} (hne : i' ≠ i) (v : Cell) :
    rowList (updAt g i j v) i' = rowList g i' := by
  unfold rowList updAt
  rw [List.getD_eq_getElem?_getD, List.getElem?_set_ne (Ne.symm hne),
    ← List.getD_eq_getElem?_getD]

theorem colList_updAt_ne {b : Nat} {g : Grid} (hwf : WF b g) {i j j' : Nat}
    (hne : j' ≠ j) (v : Cell) :
    colList (updAt g i j v) j' = colList g j' := by
  rw [colList_eq_map (WF_updAt hwf i j v) j', colList_eq_map hwf j']
  refine List.map_congr_left ?_
  intro k _
  exact cellAt_updAt_ne (Or.inr hne) v

theorem blockList_updAt_ne {b : Nat} {g : Grid} {i j bi bj : Nat}
    (hb : 0 < b) (hne : ¬(bi = i / b ∧ bj = j / b)) (v : Cell) :
    blockList b (updAt g i j v) bi bj = blockList b g bi bj := by
  unfold blockList
  refine congrArg List.flatten (List.map_congr_left ?_)
  intro di hdi
  rw [List.mem_range] at hdi
  refine List.map_congr_left ?_
  intro dj hdj
  rw [List.mem_range] at hdj
  apply cellAt_updAt_ne
  by_contra hcon
  push_neg at hcon
  obtain ⟨he1, he2⟩ := hcon
  apply hne
  constructor
  · rw [← he1, Nat.mul_comm, Nat.mul_add_div hb, Nat.div_eq_of_lt hdi]
    omega
  · rw [← he2, Nat.mul_comm, Nat.mul_add_div hb, Nat.div_eq_of_lt hdj]
    omega

theorem check_cell_components {b : Nat} {g : Grid} {row col : Int}
    (h : check_cell b g row col = some true) :
    check_row g row = some true ∧ check_col g col = some true ∧
      check_block b g ((row - 1).fdiv (b : Int) + 1)
        ((col - 1).fdiv (b : Int) + 1) = some true := by
  unfold check_cell at h
  rw [and3_eq_true_iff] at h
  exact h

theorem pos_block_of_canon {b : Nat} {x : Int} (h1 : 1 ≤ x)
    (h2 : x ≤ (size b : Int)) : 1 ≤ b := by
  rcases Nat.eq_zero_or_pos b with h0 | h
  · subst h0
    simp [size] at h2
    omega
  · exact h

theorem fdiv_cast_nat {i b : Nat} (hb : 0 < b) :
    ((i : Int) + 1 - 1).fdiv (b : Int) + 1 = ((i / b : Nat) : Int) + 1 := by
  rw [show ((i : Int) + 1 - 1) = (i : Int) from by ring,
    Int.fdiv_eq_ediv _ (by positivity), Int.natCast_div]

theorem nat_div_block_lt {i b : Nat} (hi : i < size b) : i / b < b := by
  apply Nat.div_lt_of_lt_mul
  unfold size at hi
  rw [pow_two] at hi
  omega

/-- A single-cell update that passes check_cell at the updated cell preserves
the validity of the whole table. -/
theorem ValidN_upd {b : Nat} {g : Grid} (hwf : WF b g) {i j : Nat}
    (hi : i < size b) (hj : j < size b) (v : Cell)
    (hcc : check_cell b (updAt g i j v) ((i : Int) + 1) ((j : Int) + 1)
      = some true)
    (hv : ValidN b g) : ValidN b (updAt g i j v) := by
  have hb : 1 ≤ b := pos_block_of_canon
    (show (1 : Int) ≤ (i : Int) + 1 from by omega)
    (show (i : Int) + 1 ≤ (size b : Int) from by omega)
  obtain ⟨hcr, hcol, hcb⟩ := check_cell_components hcc
  have hwf' := WF_updAt hwf i j v
  refine ⟨?_, ?_, ?_⟩
  · intro i' hi'
    by_cases hii : i' = i
    · subst hii
      rw [check_row_canon hwf' (by omega) (by omega),
        show ((i' : Int) + 1 - 1).toNat = i' from by omega] at hcr
      injection hcr with hcr
      exact (cul_true_iff _).1 hcr
    · rw [rowList_updAt_ne hii v]
      exact hv.1 i' hi'
  · intro j' hj'
    by_cases hjj : j' = j
    · subst hjj
      rw [check_col_canon hwf' (by omega) (by omega),
        show ((j' : Int) + 1 - 1).toNat = j' from by omega] at hcol
      injection hcol with hcol
      exact (cul_true_iff _).1 hcol
    · rw [colList_updAt_ne hwf hjj v]
      exact hv.2.1 j' hj'
  · intro bi hbi bj hbj
    by_cases hbb : bi = i / b ∧ bj = j / b
    · obtain ⟨rfl, rfl⟩ := hbb
      rw [fdiv_cast_nat (by omega), fdiv_cast_nat (by omega)] at hcb
      have hib : i / b < b := nat_div_block_lt hi
      have hjb : j / b < b := nat_div_block_lt hj
      have hlow : ∀ m : Nat, (1 : Int) ≤ (m : Int) + 1 := fun m => by omega
      have hhigh : ∀ m : Nat, m < b → (m : Int) + 1 ≤ (b : Int) :=
        fun m hm => by omega
      have hcancel : ∀ m : Nat, ((m : Int) + 1 - 1).toNat = m :=
        fun m => by omega
      rw [check_block_canon hwf' (hlow (i / b)) (hhigh _ hib)
          (hlow (j / b)) (hhigh _ hjb),
        hcancel (i / b), hcancel (j / b)] at hcb
      injection hcb with hcb
      exact (cul_true_iff _).1 hcb
    · rw [blockList_updAt_ne (by omega) hbb v]
      exact hv.2.2 bi hbi bj hbj

/-! ### Specifications of the mutating operations -/

theorem fdiv_block_bounds {b : Nat} (hb : 1 ≤ b) {x : Int} (h1 : 1 ≤ x)
    (h2 : x ≤ (size b : Int)) :
    1 ≤ (x - 1).fdiv (b : Int) + 1 ∧ (x - 1).fdiv (b : Int) + 1 ≤ (b : Int) := by
  have hpos : (0 : Int) < (b : Int) := by exact_mod_cast hb
  have hnn : (0 : Int) ≤ x - 1 := by omega
  rw [Int.fdiv_eq_ediv _ (le_of_lt hpos)]
  constructor
  · have := Int.ediv_nonneg hnn (le_of_lt hpos)
    omega
  · have hsz : (size b : Int) = (b : Int) * b := by
      unfold size
      push_cast
      ring
    have hlt : (x - 1) / (b : Int) < (b : Int) := by
      apply Int.ediv_lt_of_lt_mul hpos
      omega
    omega

theorem check_cell_total {b : Nat} {g : Grid} (hwf : WF b g) {row col : Int}
    (hr1 : 1 ≤ row) (hr2 : row ≤ (size b : Int))
    (hc1 : 1 ≤ col) (hc2 : col ≤ (size b : Int)) :
    ∃ bo, check_cell b g row col = some bo := by
  have hb : 1 ≤ b := pos_block_of_canon hr1 hr2
  obtain ⟨hbr1, hbr2⟩ := fdiv_block_bounds hb hr1 hr2
  obtain ⟨hbc1, hbc2⟩ := fdiv_block_bounds hb hc1 hc2
  unfold check_cell and3
  rw [check_row_canon hwf hr1 hr2]
  cases check_unique_list (rowList g (row - 1).toNat) with
  | false => exact ⟨false, rfl⟩
  | true =>
    rw [check_col_canon hwf hc1 hc2]
    cases check_unique_list (colList g (col - 1).toNat) with
    | false => exact ⟨false, rfl⟩
    | true =>
      rw [check_block_canon hwf hbr1 hbr2 hbc1 hbc2]
      exact ⟨_, rfl⟩

theorem clear_canon {b : Nat} {g : Grid} (hwf : WF b g) {row col : Int}
    (hr1 : 1 ≤ row) (hr2 : row ≤ (size b : Int))
    (hc1 : 1 ≤ col) (hc2 : col ≤ (size b : Int)) :
    clear g row col = some (updAt g (row - 1).toNat (col - 1).toNat none) := by
  unfold clear
  exact setCell_canon hwf hr1 hr2 hc1 hc2 none

theorem table_set_int_canon {b : Nat} {g : Grid} (hwf : WF b g) {row col : Int}
    (hr1 : 1 ≤ row) (hr2 : row ≤ (size b : Int))
    (hc1 : 1 ≤ col) (hc2 : col ≤ (size b : Int)) {v : Int} (hv1 : 1 ≤ v)
    (hv2 : v ≤ (size b : Int)) :
    table_set b g row col (.int v)
      = (none, updAt g (row - 1).toNat (col - 1).toNat (some v)) := by
  simp only [table_set]
  rw [if_neg (by omega), setCell_canon hwf hr1 hr2 hc1 hc2]

/-- The behaviour of SmartSuduko.set for an in-range integer value at
canonical indices, provided the stored value (restored on failure) respects
the data-model range: either the tentative write passes check_cell and
stays, or it fails, the old value is restored, and ValueError is raised. -/
theorem smart_set_spec {b : Nat} {g : Grid} (hwf : WF b g) {row col : Int}
    (hr1 : 1 ≤ row) (hr2 : row ≤ (size b : Int)) (hc1 : 1 ≤ col)
    (hc2 : col ≤ (size b : Int)) {v : Int} (hv1 : 1 ≤ v)
    (hv2 : v ≤ (size b : Int))
    (htemp : cellAt g (row - 1).toNat (col - 1).toNat = none ∨
      ∃ w, cellAt g (row - 1).toNat (col - 1).toNat = some w ∧
        1 ≤ w ∧ w ≤ (size b : Int)) :
    (check_cell b (updAt g (row - 1).toNat (col - 1).toNat (some v)) row col
        = some true ∧
      smart_set b g row col (.int v)
        = (none, updAt g (row - 1).toNat (col - 1).toNat (some v))) ∨
    (check_cell b (updAt g (row - 1).toNat (col - 1).toNat (some v)) row col
        = some false ∧
      smart_set b g row col (.int v) = (some PyErr.valueError, g)) := by
  have hg1wf := WF_updAt hwf (row - 1).toNat (col - 1).toNat (some v)
  have hrest : table_set b (updAt g (row - 1).toNat (col - 1).toNat (some v))
      row col (pyvalOf (cellAt g (row - 1).toNat (col - 1).toNat))
      = (none, g) := by
    rcases htemp with hnone | ⟨w, hw, hw1, hw2⟩
    · rw [hnone]
      simp only [pyvalOf, table_set]
      rw [setCell_canon hg1wf hr1 hr2 hc1 hc2, updAt_updAt,
        show (none : Cell) = cellAt g (row - 1).toNat (col - 1).toNat
          from hnone.symm, updAt_self]
    · rw [hw]
      simp only [pyvalOf, table_set]
      rw [if_neg (by omega), setCell_canon hg1wf hr1 hr2 hc1 hc2, updAt_updAt,
        show (some w : Cell) = cellAt g (row - 1).toNat (col - 1).toNat
          from hw.symm, updAt_self]
  obtain ⟨bo, hbo⟩ := check_cell_total hg1wf hr1 hr2 hc1 hc2
  have hbody : smart_set b g row col (.int v)
      = match check_cell b (updAt g (row - 1).toNat (col - 1).toNat (some v))
          row col with
        | none => (some PyErr.indexError,
            updAt g (row - 1).toNat (col - 1).toNat (some v))
        | some true => (none, updAt g (row - 1).toNat (col - 1).toNat (some v))
        | some false =>
          match table_set b (updAt g (row - 1).toNat (col - 1).toNat (some v))
              row col (pyvalOf (cellAt g (row - 1).toNat (col - 1).toNat)) with
          | (some e, g2) => (some e, g2)
          | (none, g2) => (some PyErr.valueError, g2) := by
    simp only [smart_set]
    rw [get_canon hwf hr1 hr2 hc1 hc2]
    simp only [table_set_int_canon hwf hr1 hr2 hc1 hc2 hv1 hv2]
  cases bo with
  | true =>
    left
    refine ⟨hbo, ?_⟩
    rw [hbody, hbo]
  | false =>
    right
    refine ⟨hbo, ?_⟩
    rw [hbody, hbo]
    simp only [hrest]


/-! ### Cursor arithmetic -/

theorem is_at_end_false {b : Nat} {row col : Int}
    (h : ¬ is_at_end b row col = true) :
    row ≤ (size b : Int) ∧ col ≤ (size b : Int) := by
  simp [is_at_end] at h
  omega

theorem is_at_end_true {b : Nat} {row col : Int}
    (h : is_at_end b row col = true) :
    (size b : Int) < row ∨ (size b : Int) < col := by
  simpa [is_at_end] using h

theorem posRank_next_lt {b : Nat} {row col : Int}
    (h1 : row ≤ (size b : Int)) (h2 : col ≤ (size b : Int)) :
    posRank b (next_cell b row col).1 (next_cell b row col).2
      < posRank b row col := by
  unfold posRank next_cell
  split
  · rename_i hc
    subst hc
    simp only
    have e1 : ((size b : Int) + 1 - (row + 1)).toNat
        = ((size b : Int) - row).toNat := by omega
    have e2 : ((size b : Int) + 1 - row).toNat
        = ((size b : Int) - row).toNat + 1 := by omega
    have e3 : ((size b : Int) - (size b : Int)).toNat = 0 := by omega
    have e4 : ((size b : Int) - 1).toNat ≤ size b := by omega
    rw [e1, e2, e3]
    nlinarith [Nat.zero_le (((size b : Int) - row).toNat * (size b + 1))]
  · rename_i hc
    simp only
    have e1 : ((size b : Int) - (col + 1)).toNat + 1
        = ((size b : Int) - col).toNat := by omega
    omega

theorem next_cell_bounds {b : Nat} {row col : Int} (h1 : 1 ≤ row)
    (h2 : 1 ≤ col) (h3 : col ≤ (size b : Int)) :
    1 ≤ (next_cell b row col).1 ∧ 1 ≤ (next_cell b row col).2 ∧
      ((next_cell b row col).2 ≤ (size b : Int) ∨
        (size b : Int) < (next_cell b row col).1) := by
  unfold next_cell
  split
  · rename_i hc
    subst hc
    simp only
    exact ⟨by omega, by omega, Or.inl (by omega)⟩
  · rename_i hc
    simp only
    exact ⟨by omega, by omega, Or.inl (by omega)⟩

theorem rm_step {b : Nat} {row col : Int} {i j : Nat} (hi : i < size b)
    (hj : j < size b) (h2 : 1 ≤ col) (h3 : col ≤ (size b : Int))
    (hrm : row < (i : Int) + 1 ∨ (row = (i : Int) + 1 ∧ col ≤ (j : Int) + 1)) :
    ((i : Int) + 1 = row ∧ (j : Int) + 1 = col) ∨
      ((next_cell b row col).1 < (i : Int) + 1 ∨
        ((next_cell b row col).1 = (i : Int) + 1 ∧
          (next_cell b row col).2 ≤ (j : Int) + 1)) := by
  unfold next_cell
  split
  · rename_i hc
    subst hc
    simp only
    omega
  · rename_i hc
    simp only
    omega

theorem cellAt_updAt_self2 {b : Nat} {g : Grid} (hwf : WF b g) {i j : Nat}
    (hi : i < size b) (hj : j < size b) (v : Cell) :
    cellAt (updAt g i j v) i j = v := by
  apply cellAt_updAt_self
  · rw [hwf.1]
    exact hi
  · have hl := rowList_length hwf hi
    unfold rowList at hl
    rw [hl]
    exact hj

/-- The exhaustion exit of the candidate loop: the cell is cleared and the
loop reports failure. -/
theorem loop_exhaust_post {b : Nat} {g : Grid} {row col : Int}
    (hwf : WF b g) (hr1 : 1 ≤ row) (hre : row ≤ (size b : Int))
    (hc1 : 1 ≤ col) (hce : col ≤ (size b : Int)) {i : Nat}
    (hargs : row ≤ (size b : Int) ∧ col ≤ (size b : Int))
    (hile : ¬ i ≤ size b) :
    LPost b g row col (solveLoop b g row col i hargs) := by
  have hi0 : (row - 1).toNat < size b := by omega
  have hj0 : (col - 1).toNat < size b := by omega
  have heq : solveLoop b g row col i hargs
      = (Except.ok false, updAt g (row - 1).toNat (col - 1).toNat none) := by
    conv_lhs => rw [solveLoop]
    rw [dif_neg hile, clear_canon hwf hr1 hre hc1 hce]
  rw [heq]
  refine ⟨⟨false, rfl⟩, WF_updAt hwf _ _ _, fun _ => rfl, ?_, ?_, ?_, ?_⟩
  · intro i' j' hi' hj' hne v hv
    rw [cellAt_updAt_ne ?_ _]
    · exact hv
    · rcases hne with h | h
      · exact Or.inl (by omega)
      · exact Or.inr (by omega)
  · intro i' j' hi' hj' v hv
    by_cases hij : i' = (row - 1).toNat ∧ j' = (col - 1).toNat
    · obtain ⟨rfl, rfl⟩ := hij
      rw [cellAt_updAt_self2 hwf hi0 hj0] at hv
      cases hv
    · left
      rw [cellAt_updAt_ne ?_ _] at hv
      · exact hv
      · rcases Decidable.not_and_iff_or_not.1 hij with h | h
        · exact Or.inl h
        · exact Or.inr h
  · intro hff
    simp at hff
  · intro hv
    refine ValidN_mono hwf (WF_updAt hwf _ _ _) ?_ hv
    intro i' j' hi' hj'
    by_cases hij : i' = (row - 1).toNat ∧ j' = (col - 1).toNat
    · obtain ⟨rfl, rfl⟩ := hij
      right
      exact cellAt_updAt_self2 hwf hi0 hj0 none
    · left
      refine cellAt_updAt_ne ?_ _
      rcases Decidable.not_and_iff_or_not.1 hij with h | h
      · exact Or.inl h
      · exact Or.inr h


/-! ### The solver invariant -/

/-- The main invariant of the backtracking solver, proved by strong induction
on the row-major rank of the cursor: every call returns a boolean (no
escaping exception), preserves the shape, restores the board exactly on
failure, never overwrites a filled cell, only writes in-range values, fills
everything from the cursor on when it succeeds, and preserves validity. -/
theorem solve_post : ∀ (pr : Nat) (b : Nat) (g : Grid) (row col : Int),
    posRank b row col ≤ pr → WF b g → 1 ≤ row → 1 ≤ col →
    (col ≤ (size b : Int) ∨ (size b : Int) < row) →
    SPost b g row col (solve b g row col) := by
  intro pr
  induction pr using Nat.strong_induction_on with
  | _ pr IH =>
  intro b g row col hpr hwf hr1 hc1 hcr
  by_cases hend : is_at_end b row col = true
  · have heq : solve b g row col = (Except.ok true, g) := by
      conv_lhs => rw [solve]
      rw [dif_pos hend]
    rw [heq]
    refine ⟨⟨true, rfl⟩, hwf, ?_, ?_, ?_, ?_, ?_⟩
    · intro hff
      simp at hff
    · intro i j hi hj v hv
      exact hv
    · intro i j hi hj v hv
      exact Or.inl hv
    · intro _ i j hi hj hrm
      exfalso
      rcases is_at_end_true hend with ha | ha
      · rcases hrm with h | ⟨h, _⟩ <;> omega
      · rcases hcr with hc | hc
        · omega
        · rcases hrm with h | ⟨h, _⟩ <;> omega
    · exact id
  · obtain ⟨hre, hce⟩ := is_at_end_false hend
    have hi0 : (row - 1).toNat < size b := by omega
    have hj0 : (col - 1).toNat < size b := by omega
    obtain ⟨hnb1, hnb2, hnb3⟩ := next_cell_bounds hr1 hc1 hce
    have loop_post : ∀ (fuel : Nat), ∀ (i : Nat) (g' : Grid)
        (hargs : row ≤ (size b : Int) ∧ col ≤ (size b : Int)),
        size b + 1 - i ≤ fuel → WF b g' → 1 ≤ i →
        (cellAt g' (row - 1).toNat (col - 1).toNat = none ∨
          ∃ w, cellAt g' (row - 1).toNat (col - 1).toNat = some w ∧
            1 ≤ w ∧ w ≤ (size b : Int)) →
        LPost b g' row col (solveLoop b g' row col i hargs) := by
      intro fuel
      induction fuel with
      | zero =>
        intro i g' hargs hfuel hwf' hi1 hcellc
        exact loop_exhaust_post hwf' hr1 hre hc1 hce hargs (by omega)
      | succ fuel ihf =>
        intro i g' hargs hfuel hwf' hi1 hcellc
        by_cases hile : i ≤ size b
        · have hvi1 : (1 : Int) ≤ (i : Int) := by omega
          have hvi2 : (i : Int) ≤ (size b : Int) := by omega
          rcases smart_set_spec hwf' hr1 hre hc1 hce hvi1 hvi2 hcellc with
            ⟨hcc, hss⟩ | ⟨hcc, hss⟩
          · have hwf1 : WF b (updAt g' (row - 1).toNat (col - 1).toNat
                (some (i : Int))) := WF_updAt hwf' _ _ _
            have hcc2 : check_cell b (updAt g' (row - 1).toNat (col - 1).toNat
                (some (i : Int))) (((row - 1).toNat : Int) + 1)
                (((col - 1).toNat : Int) + 1) = some true := by
              rw [show (((row - 1).toNat : Int) + 1) = row from by omega,
                show (((col - 1).toNat : Int) + 1) = col from by omega]
              exact hcc
            have hsp := IH
              (posRank b (next_cell b row col).1 (next_cell b row col).2)
              (lt_of_lt_of_le (posRank_next_lt hre hce) hpr) b _ _ _ le_rfl
              hwf1 hnb1 hnb2 hnb3
            rcases hsub : solve b
                (updAt g' (row - 1).toNat (col - 1).toNat (some (i : Int)))
                (next_cell b row col).1 (next_cell b row col).2 with ⟨r1, g2⟩
            rw [hsub] at hsp
            obtain ⟨⟨bl, hbl⟩, hwf2, hrest, hpres, hprov, hfill, hvalid⟩ := hsp
            have hbl2 : r1 = Except.ok bl := hbl
            subst hbl2
            cases bl with
            | true =>
              have heq : solveLoop b g' row col i hargs
                  = (Except.ok true, g2) := by
                conv_lhs => rw [solveLoop]
                rw [dif_pos hile]
                simp only [hss, hsub]
              rw [heq]
              refine ⟨⟨true, rfl⟩, hwf2, ?_, ?_, ?_, ?_, ?_⟩
              · intro hff
                simp at hff
              · intro i2 j2 hi2 hj2 hne v hv
                refine hpres i2 j2 hi2 hj2 v ?_
                rw [cellAt_updAt_ne ?_ _]
                · exact hv
                · rcases hne with h | h
                  · exact Or.inl (by omega)
                  · exact Or.inr (by omega)
              · intro i2 j2 hi2 hj2 v hv
                rcases hprov i2 j2 hi2 hj2 v hv with hin | hrange
                · by_cases hij : i2 = (row - 1).toNat ∧ j2 = (col - 1).toNat
                  · obtain ⟨rfl, rfl⟩ := hij
                    rw [cellAt_updAt_self2 hwf' hi0 hj0] at hin
                    injection hin with hin
                    right
                    omega
                  · left
                    rw [cellAt_updAt_ne ?_ _] at hin
                    · exact hin
                    · rcases Decidable.not_and_iff_or_not.1 hij with h | h
                      · exact Or.inl h
                      · exact Or.inr h
                · exact Or.inr hrange
              · intro _ i2 j2 hi2 hj2 hrm
                rcases rm_step hi2 hj2 hc1 hce hrm with ⟨heqi, heqj⟩ | hnext
                · have hii : i2 = (row - 1).toNat := by omega
                  have hjj : j2 = (col - 1).toNat := by omega
                  refine ⟨(i : Int), hpres _ _ hi2 hj2 _ ?_⟩
                  rw [hii, hjj]
                  exact cellAt_updAt_self2 hwf' hi0 hj0 _
                · exact hfill rfl i2 j2 hi2 hj2 hnext
              · intro hv
                exact hvalid (ValidN_upd hwf' hi0 hj0 _ hcc2 hv)
            | false =>
              have hg2 : g2 = updAt g' (row - 1).toNat (col - 1).toNat
                  (some (i : Int)) := hrest rfl
              subst hg2
              have heq : solveLoop b g' row col i hargs
                  = solveLoop b (updAt g' (row - 1).toNat (col - 1).toNat
                      (some (i : Int))) row col (i + 1) hargs := by
                conv_lhs => rw [solveLoop]
                rw [dif_pos hile]
                simp only [hss, hsub]
              rw [heq]
              have hlp := ihf (i + 1) _ hargs (by omega) hwf1 (by omega)
                (Or.inr ⟨(i : Int), cellAt_updAt_self2 hwf' hi0 hj0 _,
                  hvi1, hvi2⟩)
              obtain ⟨hex2, hwf3, hclear, hpres2, hprov2, hfill2, hvalid2⟩ :=
                hlp
              refine ⟨hex2, hwf3, ?_, ?_, ?_, hfill2, ?_⟩
              · intro hff
                rw [hclear hff, updAt_updAt]
              · intro i2 j2 hi2 hj2 hne v hv
                refine hpres2 i2 j2 hi2 hj2 hne v ?_
                rw [cellAt_updAt_ne ?_ _]
                · exact hv
                · rcases hne with h | h
                  · exact Or.inl (by omega)
                  · exact Or.inr (by omega)
              · intro i2 j2 hi2 hj2 v hv
                rcases hprov2 i2 j2 hi2 hj2 v hv with hin | hrange
                · by_cases hij : i2 = (row - 1).toNat ∧ j2 = (col - 1).toNat
                  · obtain ⟨rfl, rfl⟩ := hij
                    rw [cellAt_updAt_self2 hwf' hi0 hj0] at hin
                    injection hin with hin
                    right
                    omega
                  · left
                    rw [cellAt_updAt_ne ?_ _] at hin
                    · exact hin
                    · rcases Decidable.not_and_iff_or_not.1 hij with h | h
                      · exact Or.inl h
                      · exact Or.inr h
                · exact Or.inr hrange
              · intro hv
                exact hvalid2 (ValidN_upd hwf' hi0 hj0 _ hcc2 hv)
          · have heq : solveLoop b g' row col i hargs
                = solveLoop b g' row col (i + 1) hargs := by
              conv_lhs => rw [solveLoop]
              rw [dif_pos hile]
              simp only [hss]
            rw [heq]
            exact ihf (i + 1) g' hargs (by omega) hwf' (by omega) hcellc
        · exact loop_exhaust_post hwf' hr1 hre hc1 hce hargs hile
    cases hcell : cellAt g (row - 1).toNat (col - 1).toNat with
    | some w =>
      have heq : solve b g row col
          = solve b g (next_cell b row col).1 (next_cell b row col).2 := by
        conv_lhs => rw [solve]
        rw [dif_neg hend, get_canon hwf hr1 hre hc1 hce, hcell]
      rw [heq]
      have hsp := IH (posRank b (next_cell b row col).1 (next_cell b row col).2)
        (lt_of_lt_of_le (posRank_next_lt hre hce) hpr) b g _ _ le_rfl hwf
        hnb1 hnb2 hnb3
      obtain ⟨hex, hwf2, hrest, hpres, hprov, hfill, hvalid⟩ := hsp
      refine ⟨hex, hwf2, hrest, hpres, hprov, ?_, hvalid⟩
      intro ht i2 j2 hi2 hj2 hrm
      rcases rm_step hi2 hj2 hc1 hce hrm with ⟨heqi, heqj⟩ | hnext
      · refine ⟨w, hpres _ _ hi2 hj2 w ?_⟩
        have hii : i2 = (row - 1).toNat := by omega
        have hjj : j2 = (col - 1).toNat := by omega
        rw [hii, hjj, hcell]
      · exact hfill ht i2 j2 hi2 hj2 hnext
    | none =>
      have heq : solve b g row col = solveLoop b g row col 1 ⟨hre, hce⟩ := by
        conv_lhs => rw [solve]
        rw [dif_neg hend, get_canon hwf hr1 hre hc1 hce, hcell]
      rw [heq]
      have hlp := loop_post (size b + 1) 1 g ⟨hre, hce⟩ (by omega) hwf
        (by omega) (Or.inl hcell)
      obtain ⟨hex, hwf2, hclear, hpres, hprov, hfill, hvalid⟩ := hlp
      refine ⟨hex, hwf2, ?_, ?_, hprov, hfill, hvalid⟩
      · intro hff
        rw [hclear hff,
          show (none : Cell) = cellAt g (row - 1).toNat (col - 1).toNat
            from hcell.symm, updAt_self]
      · intro i2 j2 hi2 hj2 v hv
        by_cases hij : i2 = (row - 1).toNat ∧ j2 = (col - 1).toNat
        · obtain ⟨rfl, rfl⟩ := hij
          rw [hcell] at hv
          cases hv
        · refine hpres i2 j2 hi2 hj2 ?_ v hv
          rcases Decidable.not_and_iff_or_not.1 hij with h | h
          · left
            omega
          · right
            omega


/-- The solver invariant at the public entry point __solve(1, 1). -/
theorem run_solve_post {b : Nat} {g : Grid} (hwf : WF b g) :
    SPost b g 1 1 (run_solve b g) := by
  unfold run_solve
  refine solve_post (posRank b 1 1) b g 1 1 le_rfl hwf (by omega) (by omega) ?_
  rcases Nat.eq_zero_or_pos (size b) with h | h
  · right
    omega
  · left
    omega

/-- C7: the recursive solver terminates and returns a boolean for every block
size b >= 1 and every initial cell assignment: __solve(1, 1) evaluates to an
ok boolean result after finitely many steps (the totality of this translation
witnesses termination) and no exception escapes. -/
theorem C7_solver_terminates {b : Nat} {g : Grid} (hb : 1 ≤ b)
    (hwf : WF b g) :
    ∃ (bl : Bool) (g2 : Grid), run_solve b g = (Except.ok bl, g2) := by
  obtain ⟨⟨bl, hbl⟩, -⟩ := run_solve_post hwf
  refine ⟨bl, (run_solve b g).2, ?_⟩
  rw [← hbl]

theorem C7_witness :
    1 ≤ 1 ∧ WF 1 [[none]] ∧
      ∃ (bl : Bool) (g2 : Grid), run_solve 1 [[none]] = (Except.ok bl, g2) :=
  ⟨le_refl 1, by decide, C7_solver_terminates (le_refl 1) (by decide)⟩

/-- C2: if solve() returns False, every cell afterwards holds exactly the
value it held immediately before the call: the board is restored exactly. -/
theorem C2_rollback {b : Nat} {g : Grid} (hwf : WF b g)
    (hfail : (run_solve b g).1 = Except.ok false) :
    ∀ row col : Int, get ((run_solve b g).2) row col = get g row col := by
  obtain ⟨-, -, hrest, -⟩ := run_solve_post hwf
  intro row col
  rw [hrest hfail]

theorem C2_witness :
    WF 2 dupBoard ∧ (run_solve 2 dupBoard).1 = Except.ok false ∧
      get (run_solve 2 dupBoard).2 1 3 = get dupBoard 1 3 := by
  have hrun : run_solve 2 dupBoard = (Except.ok false, dupBoard) := by
    simp [run_solve, solve, solveLoop, dupBoard, is_at_end, get, pyGet, pyIdx,
      next_cell, size, smart_set, table_set, setCell, pyUpd, check_cell,
      check_row, check_col, check_block, and3, check_unique_list, intRange,
      pyvalOf, clear, allM, listMapM, List.range, List.range.loop]
  refine ⟨by decide, by rw [hrun], C2_rollback (by decide) (by rw [hrun]) 1 3⟩

/-- C4: a cell that is non-empty before the solve() call retains its original
value on every exit, success or failure: clues are never overwritten. -/
theorem C4_clues_preserved {b : Nat} {g : Grid} (hwf : WF b g)
    {row col : Int} {v : Int} (hpre : get g row col = some (some v)) :
    get ((run_solve b g).2) row col = some (some v) := by
  obtain ⟨-, hwf2, -, hpres, -⟩ := run_solve_post hwf
  rw [get_eq hwf] at hpre
  rw [get_eq hwf2]
  cases hri : pyIdx (size b) (row - 1) with
  | none =>
    simp [hri] at hpre
  | some i =>
    rw [hri] at hpre
    simp only [Option.some_bind] at hpre
    cases hcj : pyIdx (size b) (col - 1) with
    | none =>
      simp [hcj] at hpre
    | some j =>
      rw [hcj] at hpre
      simp only [Option.map_some'] at hpre
      injection hpre with hpre
      have hkeep := hpres i j (pyIdx_bound hri) (pyIdx_bound hcj) v hpre
      simp [hkeep]

theorem C4_witness :
    WF 2 dupBoard ∧ get dupBoard 1 2 = some (some 1) ∧
      get (run_solve 2 dupBoard).2 1 2 = some (some 1) :=
  ⟨by decide, by decide, C4_clues_preserved (by decide) (by decide)⟩


/-- C1 counterexample: on the fully pre-filled all-ones 4-by-4 board the
solver skips every cell and returns True, yet check() on the resulting board
is false — so success does not imply a constraint-valid board for arbitrary
starting boards. -/
theorem C1_counterexample :
    (run_solve 2 onesBoard).1 = Except.ok true ∧
      ¬ check 2 (run_solve 2 onesBoard).2 = some true := by
  have hrun : run_solve 2 onesBoard = (Except.ok true, onesBoard) := by
    simp [run_solve, solve, onesBoard, is_at_end, get, pyGet, pyIdx,
      next_cell, size]
  rw [hrun]
  exact ⟨rfl, by decide⟩

/-- C1 amended: for a starting board whose present values lie in 1..n (the
data-model invariant) and which is initially constraint-valid, success of
solve() implies every cell holds a value in 1..n and check() returns true. -/
theorem C1_success_sound {b : Nat} {g : Grid} (hwf : WF b g)
    (hvals : ValuesOK b g) (hvalid : check b g = some true)
    (hok : (run_solve b g).1 = Except.ok true) :
    (∀ row col : Int, 1 ≤ row → row ≤ (size b : Int) → 1 ≤ col →
      col ≤ (size b : Int) → ∃ v : Int, get ((run_solve b g).2) row col
        = some (some v) ∧ 1 ≤ v ∧ v ≤ (size b : Int)) ∧
    check b (run_solve b g).2 = some true := by
  obtain ⟨-, hwf2, -, -, hprov, hfill, hvalidp⟩ := run_solve_post hwf
  constructor
  · intro row col h1 h2 h3 h4
    have hi0 : (row - 1).toNat < size b := by omega
    have hj0 : (col - 1).toNat < size b := by omega
    obtain ⟨v, hv⟩ := hfill hok (row - 1).toNat (col - 1).toNat hi0 hj0
      (by omega)
    refine ⟨v, ?_, ?_⟩
    · rw [get_canon hwf2 h1 h2 h3 h4, hv]
    · rcases hprov _ _ hi0 hj0 v hv with hin | hr
      · have hok2 := hvals (row - 1).toNat (List.mem_range.2 hi0)
          (col - 1).toNat (List.mem_range.2 hj0)
        rw [hin] at hok2
        exact hok2
      · exact hr
  · exact (check_eq_true_iff hwf2).2
      (hvalidp ((check_eq_true_iff hwf).1 hvalid))

theorem C1_witness :
    WF 1 [[none]] ∧ ValuesOK 1 [[none]] ∧ check 1 [[none]] = some true ∧
      (run_solve 1 [[none]]).1 = Except.ok true ∧
      check 1 (run_solve 1 [[none]]).2 = some true := by
  have hrun : run_solve 1 [[none]] = (Except.ok true, [[some 1]]) := by
    simp [run_solve, solve, solveLoop, is_at_end, get, pyGet, pyIdx,
      next_cell, size, smart_set, table_set, setCell, pyUpd, check_cell,
      check_row, check_col, check_block, and3, check_unique_list, intRange,
      pyvalOf, clear, allM, listMapM, List.range, List.range.loop]
  refine ⟨by decide, by decide, by decide, by rw [hrun],
    (C1_success_sound (by decide) (by decide) (by decide) (by rw [hrun])).2⟩

/-- C3: check() returns true iff every row, every column, and every one of
the b-by-b blocks at the 1-based coordinates of the range formula is
duplicate-free (ignoring empty cells); in particular the 0-based loop of
check_blocks inspects every block exactly once, index 0 wrapping around to
the last block. -/
theorem C3_check_iff {b : Nat} {g : Grid} (hwf : WF b g) :
    check b g = some true ↔
      ((∀ r : Int, 1 ≤ r → r ≤ (size b : Int) → check_row g r = some true) ∧
       (∀ c : Int, 1 ≤ c → c ≤ (size b : Int) → check_col g c = some true) ∧
       (∀ br bc : Int, 1 ≤ br → br ≤ (b : Int) → 1 ≤ bc → bc ≤ (b : Int) →
         check_block b g br bc = some true)) := by
  rw [check_eq_true_iff hwf]
  unfold ValidN
  constructor
  · rintro ⟨hr, hc, hb⟩
    refine ⟨?_, ?_, ?_⟩
    · intro r h1 h2
      rw [check_row_canon hwf h1 h2, (cul_true_iff _).2 (hr _ (by omega))]
    · intro c h1 h2
      rw [check_col_canon hwf h1 h2, (cul_true_iff _).2 (hc _ (by omega))]
    · intro br bc h1 h2 h3 h4
      rw [check_block_canon hwf h1 h2 h3 h4,
        (cul_true_iff _).2 (hb _ (by omega) _ (by omega))]
  · rintro ⟨hr, hc, hb⟩
    refine ⟨?_, ?_, ?_⟩
    · intro i hi
      have h2 := hr ((i : Int) + 1) (by omega) (by omega)
      rw [check_row_canon hwf (by omega) (by omega),
        show ((i : Int) + 1 - 1).toNat = i from by omega] at h2
      injection h2 with h2
      exact (cul_true_iff _).1 h2
    · intro j hj
      have h2 := hc ((j : Int) + 1) (by omega) (by omega)
      rw [check_col_canon hwf (by omega) (by omega),
        show ((j : Int) + 1 - 1).toNat = j from by omega] at h2
      injection h2 with h2
      exact (cul_true_iff _).1 h2
    · intro bi hbi bj hbj
      have h2 := hb ((bi : Int) + 1) ((bj : Int) + 1) (by omega) (by omega)
        (by omega) (by omega)
      rw [check_block_canon hwf (by omega) (by omega) (by omega) (by omega),
        show ((bi : Int) + 1 - 1).toNat = bi from by omega,
        show ((bj : Int) + 1 - 1).toNat = bj from by omega] at h2
      injection h2 with h2
      exact (cul_true_iff _).1 h2

theorem C3_witness :
    WF 2 dupBoard ∧
      (check 2 dupBoard = some true ↔
        ((∀ r : Int, 1 ≤ r → r ≤ (size 2 : Int) →
            check_row dupBoard r = some true) ∧
         (∀ c : Int, 1 ≤ c → c ≤ (size 2 : Int) →
            check_col dupBoard c = some true) ∧
         (∀ br bc : Int, 1 ≤ br → br ≤ (2 : Int) → 1 ≤ bc → bc ≤ (2 : Int) →
            check_block 2 dupBoard br bc = some true))) :=
  ⟨by decide, C3_check_iff (by decide)⟩

/-- C6: on a fully filled well-formed board, check_cell holds at every cell
iff the global check() returns true. -/
theorem C6_incremental_iff_global {b : Nat} {g : Grid} (hb : 1 ≤ b)
    (hwf : WF b g) (hfull : Full b g) :
    (∀ r c : Int, 1 ≤ r → r ≤ (size b : Int) → 1 ≤ c → c ≤ (size b : Int) →
      check_cell b g r c = some true) ↔ check b g = some true := by
  rw [check_eq_true_iff hwf]
  have hn : 0 < size b := by
    unfold size
    exact pow_pos hb 2
  constructor
  · intro h
    refine ⟨?_, ?_, ?_⟩
    · intro i hi
      have h2 := h ((i : Int) + 1) 1 (by omega) (by omega) (by omega)
        (by omega)
      obtain ⟨hcr, -, -⟩ := check_cell_components h2
      rw [check_row_canon hwf (by omega) (by omega),
        show ((i : Int) + 1 - 1).toNat = i from by omega] at hcr
      injection hcr with hcr
      exact (cul_true_iff _).1 hcr
    · intro j hj
      have h2 := h 1 ((j : Int) + 1) (by omega) (by omega) (by omega)
        (by omega)
      obtain ⟨-, hcc, -⟩ := check_cell_components h2
      rw [check_col_canon hwf (by omega) (by omega),
        show ((j : Int) + 1 - 1).toNat = j from by omega] at hcc
      injection hcc with hcc
      exact (cul_true_iff _).1 hcc
    · intro bi hbi bj hbj
      have hrlt : bi * b + 0 < size b := block_cell_lt hbi (by omega)
      have hclt : bj * b + 0 < size b := block_cell_lt hbj (by omega)
      have h2 := h (((bi * b : Nat) : Int) + 1) (((bj * b : Nat) : Int) + 1)
        (by omega) (by omega) (by omega) (by omega)
      obtain ⟨-, -, hcb⟩ := check_cell_components h2
      have e1 : ((((bi * b : Nat) : Int)) + 1 - 1).fdiv (b : Int) + 1
          = ((bi : Nat) : Int) + 1 := by
        rw [show ((((bi * b : Nat) : Int)) + 1 - 1) = ((bi * b : Nat) : Int)
            from by ring,
          Int.fdiv_eq_ediv _ (by positivity),
          show ((bi * b : Nat) : Int) = (bi : Int) * (b : Int)
            from by push_cast; ring,
          Int.mul_ediv_cancel _ (by positivity : (0 : Int) < (b : Int)).ne']
      have e2 : ((((bj * b : Nat) : Int)) + 1 - 1).fdiv (b : Int) + 1
          = ((bj : Nat) : Int) + 1 := by
        rw [show ((((bj * b : Nat) : Int)) + 1 - 1) = ((bj * b : Nat) : Int)
            from by ring,
          Int.fdiv_eq_ediv _ (by positivity),
          show ((bj * b : Nat) : Int) = (bj : Int) * (b : Int)
            from by push_cast; ring,
          Int.mul_ediv_cancel _ (by positivity : (0 : Int) < (b : Int)).ne']
      rw [e1, e2, check_block_canon hwf (by omega) (by omega) (by omega)
          (by omega),
        show ((bi : Int) + 1 - 1).toNat = bi from by omega,
        show ((bj : Int) + 1 - 1).toNat = bj from by omega] at hcb
      injection hcb with hcb
      exact (cul_true_iff _).1 hcb
  · rintro ⟨hr, hc, hbl⟩ r c h1 h2 h3 h4
    obtain ⟨hbr1, hbr2⟩ := fdiv_block_bounds hb h1 h2
    obtain ⟨hbc1, hbc2⟩ := fdiv_block_bounds hb h3 h4
    unfold check_cell
    rw [and3_eq_true_iff]
    refine ⟨?_, ?_, ?_⟩
    · rw [check_row_canon hwf h1 h2,
        (cul_true_iff _).2 (hr _ (by omega))]
    · rw [check_col_canon hwf h3 h4,
        (cul_true_iff _).2 (hc _ (by omega))]
    · rw [check_block_canon hwf hbr1 hbr2 hbc1 hbc2,
        (cul_true_iff _).2 (hbl _ (by omega) _ (by omega))]


theorem C6_witness :
    1 ≤ 1 ∧ WF 1 [[some 1]] ∧ Full 1 [[some 1]] ∧
      ((∀ r c : Int, 1 ≤ r → r ≤ (size 1 : Int) → 1 ≤ c →
          c ≤ (size 1 : Int) → check_cell 1 [[some 1]] r c = some true) ↔
        check 1 [[some 1]] = some true) :=
  ⟨le_refl 1, by decide, by decide,
    C6_incremental_iff_global (le_refl 1) (by decide) (by decide)⟩

/-- C5: SmartSuduko.set with an in-range integer value at valid indices
raises ValueError exactly when placing the value makes check_cell false; on
the raise the previous cell value is restored and the board is exactly as
before; without a raise the cell holds the new value.  (The board is assumed
to satisfy the data-model invariant on stored values, which guarantees the
restoring write is itself accepted.) -/
theorem C5_smart_set_spec {b : Nat} {g : Grid} (hwf : WF b g)
    (hvals : ValuesOK b g) {row col : Int} (h1 : 1 ≤ row)
    (h2 : row ≤ (size b : Int)) (h3 : 1 ≤ col) (h4 : col ≤ (size b : Int))
    {v : Int} (hv1 : 1 ≤ v) (hv2 : v ≤ (size b : Int)) :
    ((smart_set b g row col (.int v)).1 = some PyErr.valueError ↔
      check_cell b (updAt g (row - 1).toNat (col - 1).toNat (some v)) row col
        = some false) ∧
    ((smart_set b g row col (.int v)).1 = some PyErr.valueError →
      (smart_set b g row col (.int v)).2 = g) ∧
    ((smart_set b g row col (.int v)).1 = none →
      (smart_set b g row col (.int v)).2
          = updAt g (row - 1).toNat (col - 1).toNat (some v) ∧
        get ((smart_set b g row col (.int v)).2) row col = some (some v)) ∧
    ((smart_set b g row col (.int v)).1 = some PyErr.valueError ∨
      (smart_set b g row col (.int v)).1 = none) := by
  have hi0 : (row - 1).toNat < size b := by omega
  have hj0 : (col - 1).toNat < size b := by omega
  have htemp : cellAt g (row - 1).toNat (col - 1).toNat = none ∨
      ∃ w, cellAt g (row - 1).toNat (col - 1).toNat = some w ∧
        1 ≤ w ∧ w ≤ (size b : Int) := by
    cases hcv : cellAt g (row - 1).toNat (col - 1).toNat with
    | none => exact Or.inl rfl
    | some w =>
      right
      refine ⟨w, rfl, ?_⟩
      have hok2 := hvals (row - 1).toNat (List.mem_range.2 hi0)
        (col - 1).toNat (List.mem_range.2 hj0)
      rw [hcv] at hok2
      exact hok2
  rcases smart_set_spec hwf h1 h2 h3 h4 hv1 hv2 htemp with
    ⟨hcc, hss⟩ | ⟨hcc, hss⟩
  · rw [hss]
    refine ⟨⟨?_, ?_⟩, ?_, ?_, Or.inr rfl⟩
    · intro h
      simp at h
    · intro h
      exact absurd (hcc.symm.trans h) (by simp)
    · intro h
      simp at h
    · intro _
      refine ⟨rfl, ?_⟩
      rw [get_canon (WF_updAt hwf _ _ _) h1 h2 h3 h4,
        cellAt_updAt_self2 hwf hi0 hj0]
  · rw [hss]
    refine ⟨⟨fun _ => hcc, fun _ => rfl⟩, fun _ => rfl, ?_, Or.inl rfl⟩
    intro h
    simp at h

theorem C5_witness :
    WF 1 [[none]] ∧ ValuesOK 1 [[none]] ∧
      ((smart_set 1 [[none]] 1 1 (.int 1)).1 = some PyErr.valueError ∨
        (smart_set 1 [[none]] 1 1 (.int 1)).1 = none) :=
  ⟨by decide, by decide,
    (C5_smart_set_spec (by decide) (by decide) (by norm_num) (by decide)
      (by norm_num) (by decide) (by norm_num) (by decide)).2.2.2⟩

/-- C8: SudokuTable.set raises ValueError for an integer value outside 1..n
and TypeError for a value that is neither an integer nor None, and in both
cases returns the board entirely unchanged; in particular set(1, 1, 10) on an
n = 9 board raises and changes nothing. -/
theorem C8_set_value_errors {b : Nat} {g : Grid} {row col : Int}
    (h1 : 1 ≤ row) (h2 : row ≤ (size b : Int)) (h3 : 1 ≤ col)
    (h4 : col ≤ (size b : Int)) :
    (∀ v : Int, v < 1 ∨ (size b : Int) < v →
      table_set b g row col (.int v) = (some PyErr.valueError, g)) ∧
    table_set b g row col .other = (some PyErr.typeError, g) := by
  constructor
  · intro v hv
    simp only [table_set]
    rw [if_pos (by omega)]
  · rfl

theorem C8_witness :
    (1 : Int) ≤ 1 ∧ (1 : Int) ≤ (size 3 : Int) ∧
      ((10 : Int) < 1 ∨ (size 3 : Int) < 10) ∧
      table_set 3 (build_table 3) 1 1 (.int 10)
        = (some PyErr.valueError, build_table 3) ∧
      table_set 3 (build_table 3) 1 1 .other
        = (some PyErr.typeError, build_table 3) := by
  have h := @C8_set_value_errors 3 (build_table 3) 1 1
    (show (1 : Int) ≤ 1 from by norm_num)
    (show (1 : Int) ≤ (size 3 : Int) from by decide)
    (show (1 : Int) ≤ 1 from by norm_num)
    (show (1 : Int) ≤ (size 3 : Int) from by decide)
  exact ⟨by norm_num, by decide, by decide, h.1 10 (by decide), h.2⟩


/-- Running a list of valid set operations never raises, keeps the shape,
and leaves each cell holding the value of the last operation targeting it
(or its initial value). -/
theorem apply_sets_spec {b : Nat} :
    ∀ (ops : List (Int × Int × PyVal)) (g : Grid), WF b g →
    (∀ op ∈ ops, opOK b op) →
    (apply_sets b g ops).1 = none ∧ WF b (apply_sets b g ops).2 ∧
    ∀ row col : Int, 1 ≤ row → row ≤ (size b : Int) → 1 ≤ col →
      col ≤ (size b : Int) →
      cellAt (apply_sets b g ops).2 (row - 1).toNat (col - 1).toNat
        = (lastWrite ops row col).getD
            (cellAt g (row - 1).toNat (col - 1).toNat)
  | [], g, hwf, _ => ⟨rfl, hwf, fun row col _ _ _ _ => rfl⟩
  | (r, c, val) :: ops, g, hwf, hops => by
    obtain ⟨ho1, ho2, ho3, ho4, ho5⟩ := hops (r, c, val) (by simp)
    simp only at ho1 ho2 ho3 ho4 ho5
    have hts : table_set b g r c val
        = (none, updAt g (r - 1).toNat (c - 1).toNat (cellOfVal val)) := by
      cases val with
      | other => exact ho5.elim
      | noneV =>
        simp only [table_set, cellOfVal]
        rw [setCell_canon hwf ho1 ho2 ho3 ho4]
      | int v => exact table_set_int_canon hwf ho1 ho2 ho3 ho4 ho5.1 ho5.2
    have happ : apply_sets b g ((r, c, val) :: ops)
        = apply_sets b (updAt g (r - 1).toNat (c - 1).toNat (cellOfVal val))
            ops := by
      simp only [apply_sets, hts]
    rw [happ]
    have hwf1 : WF b (updAt g (r - 1).toNat (c - 1).toNat (cellOfVal val)) :=
      WF_updAt hwf _ _ _
    obtain ⟨he, hwfr, hcells⟩ := apply_sets_spec ops _ hwf1
      (fun o ho => hops o (by simp [ho]))
    refine ⟨he, hwfr, ?_⟩
    intro row col h1 h2 h3 h4
    rw [hcells row col h1 h2 h3 h4]
    simp only [lastWrite]
    cases hlw : lastWrite ops row col with
    | some w => rfl
    | none =>
      by_cases hrc : r = row ∧ c = col
      · obtain ⟨rfl, rfl⟩ := hrc
        rw [if_pos ⟨rfl, rfl⟩, Option.getD_none, Option.getD_some,
          cellAt_updAt_self2 hwf (by omega) (by omega)]
      · rw [if_neg hrc, Option.getD_none, Option.getD_none,
          cellAt_updAt_ne ?_ _]
        rcases Decidable.not_and_iff_or_not.1 hrc with h | h
        · exact Or.inl (by omega)
        · exact Or.inr (by omega)

/-- C9: after any sequence of valid set calls, get returns exactly the value
of the last set targeting the cell (or the cell's initial content), no call
raises, and a single set call leaves every other cell unchanged. -/
theorem C9_last_write_wins {b : Nat} {g : Grid} (hwf : WF b g) :
    (∀ ops : List (Int × Int × PyVal), (∀ op ∈ ops, opOK b op) →
      ∀ row col : Int, 1 ≤ row → row ≤ (size b : Int) → 1 ≤ col →
        col ≤ (size b : Int) →
        (apply_sets b g ops).1 = none ∧
        get ((apply_sets b g ops).2) row col
          = some ((lastWrite ops row col).getD
              (cellAt g (row - 1).toNat (col - 1).toNat))) ∧
    (∀ row col r2 c2 : Int, ∀ value : PyVal, 1 ≤ row →
      row ≤ (size b : Int) → 1 ≤ col → col ≤ (size b : Int) → 1 ≤ r2 →
      r2 ≤ (size b : Int) → 1 ≤ c2 → c2 ≤ (size b : Int) →
      (r2 ≠ row ∨ c2 ≠ col) → (table_set b g row col value).1 = none →
      get ((table_set b g row col value).2) r2 c2 = get g r2 c2) := by
  constructor
  · intro ops hops row col h1 h2 h3 h4
    obtain ⟨he, hwfr, hcells⟩ := apply_sets_spec ops g hwf hops
    refine ⟨he, ?_⟩
    rw [get_canon hwfr h1 h2 h3 h4, hcells row col h1 h2 h3 h4]
  · intro row col r2 c2 value h1 h2 h3 h4 h5 h6 h7 h8 hne hnone
    have hfr : ∀ w : Cell,
        get (updAt g (row - 1).toNat (col - 1).toNat w) r2 c2
          = get g r2 c2 := by
      intro w
      rw [get_canon (WF_updAt hwf _ _ _) h5 h6 h7 h8,
        get_canon hwf h5 h6 h7 h8, cellAt_updAt_ne ?_ _]
      rcases hne with h | h
      · exact Or.inl (by omega)
      · exact Or.inr (by omega)
    cases value with
    | other => simp [table_set] at hnone
    | noneV =>
      have hts : table_set b g row col .noneV
          = (none, updAt g (row - 1).toNat (col - 1).toNat none) := by
        simp only [table_set]
        rw [setCell_canon hwf h1 h2 h3 h4]
      rw [hts]
      exact hfr none
    | int v =>
      by_cases hv : v < 1 ∨ (size b : Int) < v
      · have hts : table_set b g row col (.int v)
            = (some PyErr.valueError, g) := by
          simp only [table_set]
          rw [if_pos (by omega)]
        rw [hts] at hnone
        simp at hnone
      · push_neg at hv
        rw [table_set_int_canon hwf h1 h2 h3 h4 (by omega) (by omega)]
        exact hfr (some v)

theorem C9_witness :
    WF 1 [[none]] ∧
      (∀ op ∈ [((1 : Int), (1 : Int), PyVal.int 1),
        ((1 : Int), (1 : Int), PyVal.noneV)], opOK 1 op) ∧
      (apply_sets 1 [[none]] [(1, 1, PyVal.int 1), (1, 1, PyVal.noneV)]).1
        = none ∧
      get (apply_sets 1 [[none]]
          [(1, 1, PyVal.int 1), (1, 1, PyVal.noneV)]).2 1 1
        = some ((lastWrite [((1 : Int), (1 : Int), PyVal.int 1),
            ((1 : Int), (1 : Int), PyVal.noneV)] 1 1).getD
              (cellAt [[none]] 0 0)) := by
  have h := (C9_last_write_wins (show WF 1 [[none]] from by decide)).1
    [(1, 1, PyVal.int 1), (1, 1, PyVal.noneV)] (by decide) 1 1
    (by norm_num) (by decide) (by norm_num) (by decide)
  exact ⟨by decide, by decide, h.1, h.2⟩

/-- C10: get, set and clear do not raise for a row (or column) argument in
[-n+1, 0]: the negative internal index wraps around, the access succeeding
and denoting the same cell as the argument shifted by n; in particular
get(0, c) reads the last row. -/
theorem C10_negative_index_wraps {b : Nat} {g : Grid} (hwf : WF b g)
    (hn : 1 ≤ size b) :
    (∀ row col : Int, 1 - (size b : Int) ≤ row → row ≤ 0 → 1 ≤ col →
      col ≤ (size b : Int) →
      (get g row col = get g (row + (size b : Int)) col ∧
        (get g row col).isSome = true) ∧
      (∀ v : Cell, setCell g row col v
          = setCell g (row + (size b : Int)) col v ∧
        (setCell g row col v).isSome = true) ∧
      (clear g row col = clear g (row + (size b : Int)) col ∧
        (clear g row col).isSome = true)) ∧
    (∀ row col : Int, 1 ≤ row → row ≤ (size b : Int) →
      1 - (size b : Int) ≤ col → col ≤ 0 →
      (get g row col = get g row (col + (size b : Int)) ∧
        (get g row col).isSome = true) ∧
      (∀ v : Cell, setCell g row col v
          = setCell g row (col + (size b : Int)) v ∧
        (setCell g row col v).isSome = true) ∧
      (clear g row col = clear g row (col + (size b : Int)) ∧
        (clear g row col).isSome = true)) ∧
    (∀ col : Int, 1 ≤ col → col ≤ (size b : Int) →
      get g 0 col = get g (size b : Int) col) := by
  refine ⟨?_, ?_, ?_⟩
  · intro row col hr1 hr2 hc1 hc2
    have hget := get_wrap_row hwf col hr1 hr2
    have hset := fun v : Cell => setCell_wrap_row hwf col v hr1 hr2
    refine ⟨⟨hget, ?_⟩, fun v => ⟨hset v, ?_⟩, ⟨hset none, ?_⟩⟩
    · rw [hget, get_canon hwf (by omega) (by omega) hc1 hc2]
      rfl
    · rw [hset v, setCell_canon hwf (by omega) (by omega) hc1 hc2]
      rfl
    · unfold clear
      rw [hset none, setCell_canon hwf (by omega) (by omega) hc1 hc2]
      rfl
  · intro row col hr1 hr2 hc1 hc2
    have hget := get_wrap_col hwf row hc1 hc2
    have hset := fun v : Cell => setCell_wrap_col hwf row v hc1 hc2
    refine ⟨⟨hget, ?_⟩, fun v => ⟨hset v, ?_⟩, ⟨hset none, ?_⟩⟩
    · rw [hget, get_canon hwf hr1 hr2 (by omega) (by omega)]
      rfl
    · rw [hset v, setCell_canon hwf hr1 hr2 (by omega) (by omega)]
      rfl
    · unfold clear
      rw [hset none, setCell_canon hwf hr1 hr2 (by omega) (by omega)]
      rfl
  · intro col h1 h2
    rw [get_wrap_row hwf col (by omega) (by omega),
      show (0 : Int) + (size b : Int) = (size b : Int) from by ring]

theorem C10_witness :
    WF 2 dupBoard ∧ 1 ≤ size 2 ∧
      get dupBoard 0 2 = get dupBoard (size 2 : Int) 2 ∧
      (get dupBoard 0 2).isSome = true := by
  have h := C10_negative_index_wraps (show WF 2 dupBoard from by decide)
    (show 1 ≤ size 2 from by decide)
  have h1 := (h.1 0 2 (by decide) (by norm_num) (by norm_num) (by decide)).1
  exact ⟨by decide, by decide, h.2.2 2 (by norm_num) (by decide), h1.2⟩


end Sudoku
